import Mathlib

/-!
# NetLab: ARP and IP layers

A shallow embedding of `src/arp.c` and `src/ip.c` (with the part of
`src/ethernet.c` they transmit through) and theorems about the address table,
the resolver, the fragmenting send operation, the header of a fragment and the
checks of datagram input.

Conventions of the embedding.

* A byte is a `Nat`; a `uint8_t[4]` IP address is a `Fin 4 → Nat`, a
  `uint8_t[6]` link address a `Fin 6 → Nat`.
* A buffer `buf_t` is modelled by its valid bytes: the `len` bytes that start
  at `data`.  A `buf_t *` argument of the resolver is a `buf_ptr`: the address of
  the global `txbuf`, which `arp_req` and `arp_in` also write, or a buffer of the
  caller given by its bytes.
* Global variables (`arp_table`, `arp_buf`, `txbuf`, `id`) are passed explicitly;
  the frames given to `driver_send` are collected in a list, oldest first.
* `time(NULL)` is read once per call of `arp_update` and passed as `now`.
* The host is little-endian, as the unconditional `swap16` of the code presupposes:
  a `uint16_t` field of a header is read low byte first, and the value in network
  byte order is `swap16` of it.
-/

namespace NetLab

/-! ## Constants of the headers -/

/-- Length of an IP address in bytes (`NET_IP_LEN`). -/
def NET_IP_LEN : Nat := 4

/-- Length of a link address in bytes (`NET_MAC_LEN`). -/
def NET_MAC_LEN : Nat := 6

/-- Link MTU in bytes (`ETHERNET_MTU`). -/
def ETHERNET_MTU : Nat := 1500

/-- Size of the fixed IP header, `sizeof(ip_hdr_t)`. -/
def IP_HDR_SIZE : Nat := 20

/-- An IP address, `uint8_t[NET_IP_LEN]`. -/
abbrev ip_addr := Fin 4 → Nat

/-- A link address, `uint8_t[NET_MAC_LEN]`. -/
abbrev mac_addr := Fin 6 → Nat

/-- A buffer, given by its `len` valid bytes from `data` on. -/
abbrev buf_t := List Nat

/-! ## Constants and types of arp.h, net.h, utils.h and config.h

These headers are not among the sources.  The protocol constants have their
standard values; the values that belong to one node are fields of `config`. -/

/-- Modelled from the spec: the byte-swap `swap16` of utils.h (not among the sources),
the conversion between host and network byte order of a 16-bit value. -/
def swap16 (x : Nat) : Nat := ((x &&& 0xFF) <<< 8) ||| ((x >>> 8) &&& 0xFF)

/-- Constant `ARP_HW_ETHER` of arp.h: the hardware type Ethernet. -/
def ARP_HW_ETHER : Nat := 0x1

/-- Constant `ARP_REQUEST` of arp.h: the opcode of a request. -/
def ARP_REQUEST : Nat := 0x1

/-- Constant `ARP_REPLY` of arp.h: the opcode of a reply. -/
def ARP_REPLY : Nat := 0x2

/-- Constant `NET_PROTOCOL_ARP` of net.h: the frame type of ARP. -/
def NET_PROTOCOL_ARP : Nat := 0x0806

/-- Constant `NET_PROTOCOL_IP` of net.h: the frame type of IP. -/
def NET_PROTOCOL_IP : Nat := 0x0800

/-- The broadcast link address `ether_broadcast_mac`, all bytes `0xff`. -/
def ether_broadcast_mac : mac_addr := fun _ => 0xFF

/-- The values of config.h and the node's address variable: the entry timeout
`ARP_TIMEOUT_SEC`, the configured addresses `DRIVER_IF_IP` and `DRIVER_IF_MAC` that
`arp_init_pkt` is built from, and `net_if_ip`, the address that inbound packets are
compared with.  The capacity `ARP_MAX_ENTRY` is the length of the table. -/
structure config where
  ARP_TIMEOUT_SEC : Int
  DRIVER_IF_IP : ip_addr
  DRIVER_IF_MAC : mac_addr
  net_if_ip : ip_addr

/-- Modelled from the spec: the type `arp_state_t` of arp.h (not among the sources),
"state: {Invalid, Valid}". -/
inductive arp_state_t where
  | ARP_INVALID
  | ARP_VALID
  deriving DecidableEq, Repr

/-- Modelled from the spec: the type `arp_entry_t` of arp.h (not among the sources),
"{ip, link_addr, state, expiry: absolute time}"; the field `timeout` holds a `time_t`. -/
structure arp_entry_t where
  state : arp_state_t
  timeout : Int
  ip : ip_addr
  mac : mac_addr
  deriving DecidableEq

/-- Modelled from the spec: the type `arp_buf_t` of arp.h (not among the sources),
"{payload, target_ip, upper_protocol, valid: bool}". -/
structure arp_buf_t where
  buf : buf_t
  ip : ip_addr
  protocol : Nat
  valid : Bool
  deriving DecidableEq

/-- Modelled from the spec: the type `arp_pkt_t` of arp.h (not among the sources), the
packet of RFC 826 for Ethernet and IPv4.  The 16-bit fields hold the value as it
lies in the packet, that is `swap16` of the number they stand for. -/
structure arp_pkt_t where
  hw_type : Nat
  pro_type : Nat
  hw_len : Nat
  pro_len : Nat
  opcode : Nat
  sender_mac : mac_addr
  sender_ip : ip_addr
  target_mac : mac_addr
  target_ip : ip_addr
  deriving DecidableEq

/-- What a buffer given to `ethernet_out` holds: an ARP packet written through
`arp_pkt_t *`, or the bytes of an upper layer. -/
inductive payload_t where
  | arp (pkt : arp_pkt_t)
  | raw (bytes : buf_t)
  deriving DecidableEq

/-- A frame as `ethernet_out` gives it to `driver_send`: the 14 bytes of header it
writes (`p[0..5]`, `p[6..11]`, `p[12]`, `p[13]`) and the buffer behind them. -/
structure frame where
  dst : mac_addr
  src : mac_addr
  type_hi : Nat
  type_lo : Nat
  body : payload_t
  deriving DecidableEq

/-- The global state of the ARP layer: `arp_table`, `arp_buf`, the frames given to
`driver_send` so far, oldest first, and the bytes that the global transmit buffer
`txbuf` holds. -/
structure net_state where
  arp_table : List arp_entry_t
  arp_buf : arp_buf_t
  sent : List frame
  txbuf : buf_t

/-- A `buf_t *` argument: the address of the global `txbuf`, as `icmp_in` and
`icmp_unreachable` pass it down through `ip_out`, or a buffer of the caller, given by
its bytes. -/
inductive buf_ptr where
  | txbuf
  | other (bytes : buf_t)
  deriving DecidableEq

/-- The bytes `*buf` of a `buf_t *` argument in state `s`. -/
def deref (s : net_state) : buf_ptr → buf_t
  | .txbuf => s.txbuf
  | .other bytes => bytes

/-! ## ethernet.c: transmit -/

/-- The source address that `ethernet_out` writes, `11:22:33:44:55:66`. -/
def ethernet_src : mac_addr := ![0x11, 0x22, 0x33, 0x44, 0x55, 0x66]

/-- The function `ethernet_out(buf, mac, protocol)`: prepend the header and send.  The
header is written into the buffer itself; the callers below record what `txbuf` or
`arp_buf.buf` holds afterwards. -/
def ethernet_out (s : net_state) (buf : payload_t) (mac : mac_addr) (protocol : Nat) :
    net_state :=
  { s with sent := s.sent ++
      [⟨fun i => mac i, ethernet_src, (protocol &&& 0xFF00) >>> 8, protocol &&& 0x00FF, buf⟩] }

/-- The 14 bytes that `ethernet_out` writes in front of a buffer. -/
def ethernet_header (mac : mac_addr) (protocol : Nat) : List Nat :=
  List.ofFn (fun i : Fin 6 => mac i) ++ List.ofFn ethernet_src ++
    [(protocol &&& 0xFF00) >>> 8, protocol &&& 0x00FF]

/-- Modelled from the spec: the layout of `arp_pkt_t` (arp.h, not among the sources),
the 28 bytes of the packet of RFC 826 in the order of its fields, each 16-bit field
low byte first. -/
def arp_pkt_bytes (p : arp_pkt_t) : List Nat :=
  [p.hw_type &&& 0xFF, p.hw_type >>> 8, p.pro_type &&& 0xFF, p.pro_type >>> 8,
    p.hw_len, p.pro_len, p.opcode &&& 0xFF, p.opcode >>> 8] ++
    List.ofFn p.sender_mac ++ List.ofFn p.sender_ip ++
    List.ofFn p.target_mac ++ List.ofFn p.target_ip

/-! ## arp.c -/

/-- The constant `arp_init_pkt`; the fields it does not name are zero. -/
def arp_init_pkt (cfg : config) : arp_pkt_t :=
  { hw_type := swap16 ARP_HW_ETHER
    pro_type := swap16 NET_PROTOCOL_IP
    hw_len := NET_MAC_LEN
    pro_len := NET_IP_LEN
    opcode := 0
    sender_mac := cfg.DRIVER_IF_MAC
    sender_ip := cfg.DRIVER_IF_IP
    target_mac := fun _ => 0
    target_ip := fun _ => 0 }

/-- Conversion of a `time_t` to `int`, as in `int longest = arp_table[0].timeout`:
the value modulo `2^32`, read as a signed 32-bit number. -/
def to_int (x : Int) : Int := (x + 2147483648) % 4294967296 - 2147483648

/-- First loop of `arp_update`: every entry with `now - timeout > ARP_TIMEOUT_SEC`
becomes invalid. -/
def arp_sweep (cfg : config) (now : Int) (table : List arp_entry_t) : List arp_entry_t :=
  table.map fun e =>
    if now - e.timeout > cfg.ARP_TIMEOUT_SEC then { e with state := .ARP_INVALID } else e

/-- Second loop of `arp_update`: the first index `i` with
`arp_table[i].state == ARP_INVALID`, if there is one. -/
def first_invalid : List arp_entry_t → Option Nat
  | [] => none
  | e :: es =>
    if e.state = .ARP_INVALID then some 0 else (first_invalid es).map (· + 1)

/-- Third loop of `arp_update`, run over the entries from index `i` on with the
current `index` and `longest`; the result is the final `index`. -/
def longest_loop : List arp_entry_t → Nat → Nat → Int → Nat
  | [], _, index, _ => index
  | e :: es, i, index, longest =>
    if e.timeout < longest then longest_loop es (i + 1) i (to_int e.timeout)
    else longest_loop es (i + 1) index longest

/-- The index that `arp_update` overwrites when no entry is invalid. -/
def longest_index : List arp_entry_t → Nat
  | [] => 0
  | e :: es => longest_loop es 1 0 (to_int e.timeout)

/-- The function `arp_update(ip, mac, state)` at time `now`. -/
def arp_update (cfg : config) (now : Int) (table : List arp_entry_t)
    (ip : ip_addr) (mac : mac_addr) (state : arp_state_t) : List arp_entry_t :=
  let swept := arp_sweep cfg now table
  let entry : arp_entry_t :=
    { state := state, timeout := now + cfg.ARP_TIMEOUT_SEC, ip := fun j => ip j,
      mac := fun j => mac j }
  match first_invalid swept with
  | some i => swept.set i entry
  | none => swept.set (longest_index swept) entry

/-- The function `arp_lookup(ip)`: the link address of the first valid entry whose
address equals `ip`, `none` for `NULL`. -/
def arp_lookup : List arp_entry_t → ip_addr → Option mac_addr
  | [], _ => none
  | e :: es, ip =>
    if e.state = .ARP_VALID ∧ e.ip = ip then some e.mac else arp_lookup es ip

/-- The function `arp_req(target_ip)`: broadcast a request for `target_ip`.  The
request is built in the global `txbuf` (`buf_init(&txbuf, sizeof(arp_pkt_t))`), which
afterwards holds the frame: the 14 bytes of the header and the 28 bytes of the
request. -/
def arp_req (cfg : config) (s : net_state) (target_ip : ip_addr) : net_state :=
  let header : arp_pkt_t :=
    { arp_init_pkt cfg with opcode := swap16 ARP_REQUEST, target_ip := fun i => target_ip i }
  let s1 := ethernet_out s (.arp header) ether_broadcast_mac NET_PROTOCOL_ARP
  { s1 with
    txbuf := ethernet_header ether_broadcast_mac NET_PROTOCOL_ARP ++ arp_pkt_bytes header }

/-- The header check of `arp_in`: true when the packet is dropped. -/
def arp_in_rejects (header : arp_pkt_t) : Bool :=
  header.hw_type != swap16 ARP_HW_ETHER
    || header.pro_type != swap16 NET_PROTOCOL_IP
    || header.hw_len != NET_MAC_LEN
    || header.pro_len != NET_IP_LEN
    || (swap16 header.opcode != ARP_REQUEST && swap16 header.opcode != ARP_REPLY)

/-- The function `arp_in(buf)` at time `now`, on the packet `header` that `buf` holds.
When the pending datagram is sent, `ethernet_out` works on `arp_buf.buf` itself, which
afterwards holds the header as well; a reply is built in the global `txbuf`, which
afterwards holds the frame of the reply. -/
def arp_in (cfg : config) (now : Int) (s : net_state) (header : arp_pkt_t) : net_state :=
  let opcode := swap16 header.opcode
  if arp_in_rejects header then s
  else
    let s1 : net_state :=
      { s with arp_table :=
          arp_update cfg now s.arp_table header.sender_ip header.sender_mac .ARP_VALID }
    if s1.arp_buf.valid then
      match arp_lookup s1.arp_table header.sender_ip with
      | none => s1
      | some target_mac =>
        let s2 := ethernet_out { s1 with arp_buf := { s1.arp_buf with valid := false } }
          (.raw s1.arp_buf.buf) target_mac s1.arp_buf.protocol
        { s2 with arp_buf :=
            { s2.arp_buf with
              buf := ethernet_header target_mac s1.arp_buf.protocol ++ s1.arp_buf.buf } }
    else if opcode ≠ ARP_REQUEST then s1
    else if ∃ i : Fin 4, header.target_ip i ≠ cfg.net_if_ip i then s1
    else
      let sender : arp_pkt_t :=
        { arp_init_pkt cfg with
          opcode := swap16 ARP_REPLY
          target_ip := fun i => header.sender_ip i
          target_mac := fun i => header.sender_mac i }
      let s2 := ethernet_out s1 (.arp sender) sender.target_mac NET_PROTOCOL_ARP
      { s2 with
        txbuf := ethernet_header sender.target_mac NET_PROTOCOL_ARP ++ arp_pkt_bytes sender }

/-- The function `arp_out(buf, ip, protocol)`.  When the lookup fails, `arp_req(ip)`
runs first and rebuilds the global `txbuf`; `arp_buf.buf = *buf` then copies what `buf`
points to at that moment, which is the frame of the request when `buf` is `&txbuf`. -/
def arp_out (cfg : config) (s : net_state) (buf : buf_ptr) (ip : ip_addr) (protocol : Nat) :
    net_state :=
  match arp_lookup s.arp_table ip with
  | some mac =>
    let s1 := ethernet_out s (.raw (deref s buf)) mac protocol
    match buf with
    | .txbuf => { s1 with txbuf := ethernet_header mac protocol ++ s.txbuf }
    | .other _ => s1
  | none =>
    let s1 := arp_req cfg s ip
    { s1 with
      arp_buf :=
        { buf := deref s1 buf, ip := fun i => ip i, protocol := protocol, valid := true } }

/-- The function `arp_init()`: all entries invalid, nothing pending, and a request
for the node's own address. -/
def arp_init (cfg : config) (s : net_state) : net_state :=
  let s1 : net_state :=
    { s with
      arp_table := s.arp_table.map fun e => { e with state := .ARP_INVALID }
      arp_buf := { s.arp_buf with valid := false } }
  arp_req cfg s1 cfg.net_if_ip

/-! ## ip.c: fragmenting send -/

/-- The arguments of one call `ip_fragment_out(buf, ip, protocol, id, offset, mf)`.
`offset` is the value received in the `uint16_t` parameter. -/
structure frag_call where
  buf : buf_t
  ip : ip_addr
  protocol : Nat
  id : Int
  offset : Nat
  mf : Nat
  deriving DecidableEq, Repr

/-- The largest payload of one fragment, `int max_length = ETHERNET_MTU - sizeof(ip_hdr_t)`. -/
def max_length : Nat := ETHERNET_MTU - IP_HDR_SIZE

/-- The state of the `while (left_length >= max_length)` loop of `ip_out` after
it has run: the calls it made, then `buf->data`, `left_length` and `count`.
The first argument bounds the number of iterations; `left_length` itself is
enough, as every iteration takes `max_length` off it. -/
def ip_out_loop (ip : ip_addr) (protocol : Nat) (id : Int) :
    Nat → List Nat → Nat → Nat → List frag_call × List Nat × Nat × Nat
  | 0, data, left_length, count => ([], data, left_length, count)
  | fuel + 1, data, left_length, count =>
    if left_length ≥ max_length then
      let call : frag_call :=
        ⟨data.take max_length, ip, protocol, id, ((count * max_length) >>> 3) % 65536, 1⟩
      let rest := ip_out_loop ip protocol id fuel (data.drop max_length)
        (left_length - max_length) (count + 1)
      (call :: rest.1, rest.2)
    else ([], data, left_length, count)

/-- The function `ip_out(buf, ip, protocol)` run with the global `id`: the calls of
`ip_fragment_out` it makes, in order, and the new value of `id`.
`uint16_t left_length = buf->len` keeps the low 16 bits of the length. -/
def ip_out (id : Int) (buf : buf_t) (ip : ip_addr) (protocol : Nat) :
    List frag_call × Int :=
  if buf.length > max_length then
    let left_length := buf.length % 65536
    let r := ip_out_loop ip protocol id left_length buf left_length 0
    let data := r.2.1
    let left := r.2.2.1
    let count := r.2.2.2
    let last : List frag_call :=
      if left > 0 then
        [⟨data.take left, ip, protocol, id, ((count * max_length) >>> 3) % 65536, 0⟩]
      else []
    (r.1 ++ last, id + 1)
  else ([⟨buf, ip, protocol, id, 0, 0⟩], id + 1)

/-- The call that the loop of `ip_out` makes in its iteration `j`, when the loop is
entered with `data` and `count`. -/
def loop_call (ip : ip_addr) (protocol : Nat) (id : Int) (data : List Nat) (count j : Nat) :
    frag_call :=
  ⟨(data.drop (j * max_length)).take max_length, ip, protocol, id,
    (((count + j) * max_length) >>> 3) % 65536, 1⟩

/-- The call that `ip_out` makes after its loop for the remainder of `buf`. -/
def last_call (ip : ip_addr) (protocol : Nat) (id : Int) (buf : buf_t) : frag_call :=
  ⟨(buf.drop (buf.length / max_length * max_length)).take (buf.length % max_length), ip, protocol,
    id, ((buf.length / max_length * max_length) >>> 3) % 65536, 0⟩

/-! ## Sequences of updates and the uniqueness invariant -/

/-- One call `arp_update(ip, mac, ARP_VALID)` made at time `now`. -/
structure arp_call where
  now : Int
  ip : ip_addr
  mac : mac_addr

/-- The table after a sequence of `arp_update` calls with state `ARP_VALID`. -/
def arp_updates (cfg : config) (t : List arp_entry_t) (calls : List arp_call) :
    List arp_entry_t :=
  calls.foldl (fun t c => arp_update cfg c.now t c.ip c.mac .ARP_VALID) t

/-- No two valid entries of the table hold the same IP address. -/
def valid_ips_distinct (t : List arp_entry_t) : Prop :=
  t.Pairwise fun a b => ¬ (a.state = .ARP_VALID ∧ b.state = .ARP_VALID ∧ a.ip = b.ip)

instance (t : List arp_entry_t) : Decidable (valid_ips_distinct t) := by
  unfold valid_ips_distinct
  infer_instance

/-- No call of the sequence is made for an address that a valid entry still holds
after the expiry sweep of that call. -/
def calls_fresh (cfg : config) : List arp_entry_t → List arp_call → Bool
  | _, [] => true
  | t, c :: cs =>
    (arp_lookup (arp_sweep cfg c.now t) c.ip).isNone &&
      calls_fresh cfg (arp_update cfg c.now t c.ip c.mac .ARP_VALID) cs

/-! ## Constants and types of ip.h, icmp.h and net.h, and the checksum of utils.c

These files are not among the sources.  The protocol constants have their standard
values; `IP_MORE_FRAGMENT` and `IP_DEFALUT_TTL` are fields of `ip_config`. -/

/-- Constant `IP_VERSION_4` of ip.h. -/
def IP_VERSION_4 : Nat := 4

/-- Constant `IP_HDR_LEN_PER_BYTE` of ip.h: the unit of the header-length field. -/
def IP_HDR_LEN_PER_BYTE : Nat := 4

/-- Constant `NET_PROTOCOL_ICMP` of net.h: the protocol number of ICMP. -/
def NET_PROTOCOL_ICMP : Nat := 1

/-- Constant `NET_PROTOCOL_UDP` of net.h: the protocol number of UDP. -/
def NET_PROTOCOL_UDP : Nat := 17

/-- Constant `ICMP_CODE_PROTOCOL_UNREACH` of icmp.h: the code "protocol unreachable". -/
def ICMP_CODE_PROTOCOL_UNREACH : Nat := 2

/-- The macros of ip.h that `ip_fragment_out` uses and whose values the sources do not
show: the flag mask `IP_MORE_FRAGMENT` and the time to live `IP_DEFALUT_TTL`. -/
structure ip_config where
  IP_MORE_FRAGMENT : Nat
  IP_DEFALUT_TTL : Nat

/-- The byte at offset `i` from `buf->data`. -/
def hdr_byte (buf : buf_t) (i : Nat) : Nat := buf.getD i 0

/-- A `uint16_t` field of the header at byte offset `i`, as the host reads it: low
byte first. -/
def hdr_field16 (buf : buf_t) (i : Nat) : Nat := hdr_byte buf i + 256 * hdr_byte buf (i + 1)

/-- Modelled from the spec: the type `ip_hdr_t` of ip.h (not among the sources), the
20-byte header of RFC 791 laid over the buffer.  Field `version`, the high half of
byte 0. -/
def ip_version (buf : buf_t) : Nat := hdr_byte buf 0 >>> 4

/-- Field `hdr_len` of `ip_hdr_t`, the low half of byte 0. -/
def ip_hdr_len (buf : buf_t) : Nat := hdr_byte buf 0 &&& 0xF

/-- Field `total_len` of `ip_hdr_t`, bytes 2 and 3. -/
def ip_total_len (buf : buf_t) : Nat := hdr_field16 buf 2

/-- Field `flags_fragment` of `ip_hdr_t`, bytes 6 and 7. -/
def ip_flags_fragment (buf : buf_t) : Nat := hdr_field16 buf 6

/-- Field `protocol` of `ip_hdr_t`, byte 9. -/
def ip_protocol (buf : buf_t) : Nat := hdr_byte buf 9

/-- Field `hdr_checksum` of `ip_hdr_t`, bytes 10 and 11. -/
def ip_hdr_checksum (buf : buf_t) : Nat := hdr_field16 buf 10

/-- Field `src_ip` of `ip_hdr_t`, bytes 12 to 15. -/
def ip_src_ip (buf : buf_t) : ip_addr := fun i => hdr_byte buf (12 + i.val)

/-- Field `dest_ip` of `ip_hdr_t`, bytes 16 to 19. -/
def ip_dest_ip (buf : buf_t) : ip_addr := fun i => hdr_byte buf (16 + i.val)

/-- The sum of the 16-bit words of a byte sequence, each word read low byte first; a
last single byte counts as a word. -/
def sum16 : List Nat → Nat
  | [] => 0
  | [a] => a
  | a :: b :: rest => (a + 256 * b) + sum16 rest

/-- The loop `while (sum >> 16) sum = (sum >> 16) + (sum & 0xFFFF)`.  The first
argument bounds the number of rounds; `sum` itself is enough, as every round makes a
sum of more than 16 bits smaller. -/
def fold16 : Nat → Nat → Nat
  | 0, sum => sum
  | fuel + 1, sum =>
    if sum >>> 16 ≠ 0 then fold16 fuel ((sum >>> 16) + (sum &&& 0xFFFF)) else sum

/-- Modelled from the spec: the function `checksum16(buf, len)` of utils.c (not among
the sources), "the standard one's-complement 16-bit checksum": the 16-bit words of the
`len` bytes are added, the carries are folded back in, and the complement of the
16-bit result is returned. -/
def checksum16 (buf : List Nat) (len : Nat) : Nat :=
  let sum := sum16 (buf.take len)
  0xFFFF - fold16 sum sum

/-! ## ip.c: input -/

/-- What `ip_in` does with a datagram: it returns without a call, or makes one call
of `icmp_in`, `udp_in` or `icmp_unreachable` with the arguments given. -/
inductive ip_action where
  | drop
  | icmp_in (buf : buf_t) (src_ip : ip_addr)
  | udp_in (buf : buf_t) (src_ip : ip_addr)
  | icmp_unreachable (recv_buf : buf_t) (src_ip : ip_addr) (code : Nat)
  deriving DecidableEq

/-- The header check of `ip_in`: true when the datagram is dropped. -/
def ip_in_header_bad (buf : buf_t) : Bool :=
  ip_version buf != IP_VERSION_4
    || ip_hdr_len buf * IP_HDR_LEN_PER_BYTE != IP_HDR_SIZE
    || decide (ip_total_len buf < IP_HDR_SIZE)

/-- The value `checksum` of `ip_in`: `checksum16` over the header with the field
`hdr_checksum` set to zero. -/
def ip_in_checksum (buf : buf_t) : Nat := checksum16 ((buf.set 10 0).set 11 0) IP_HDR_SIZE

/-- The function `ip_in(buf)`.  The field `hdr_checksum` is written back before the
comparison, so the handlers get the datagram as it came; `buf_remove_header(buf, 20)`
takes the first 20 bytes off. -/
def ip_in (cfg : config) (buf : buf_t) : ip_action :=
  if ip_in_header_bad buf then .drop
  else
    let temp_checksum := ip_hdr_checksum buf
    let checksum := ip_in_checksum buf
    if checksum ≠ temp_checksum then .drop
    else if ∃ i : Fin 4, ip_dest_ip buf i ≠ cfg.net_if_ip i then .drop
    else if ip_protocol buf = NET_PROTOCOL_ICMP then
      .icmp_in (buf.drop IP_HDR_SIZE) (ip_src_ip buf)
    else if ip_protocol buf = NET_PROTOCOL_UDP then
      .udp_in (buf.drop IP_HDR_SIZE) (ip_src_ip buf)
    else .icmp_unreachable buf (ip_src_ip buf) ICMP_CODE_PROTOCOL_UNREACH

/-! ## ip.c: output of one fragment -/

/-- The 20 bytes of the header that `ip_fragment_out` fills in, for a buffer of `len`
bytes (header included) and a given value of the field `hdr_checksum`.  The 16-bit
fields are stored low byte first; `id` and `len` pass through `swap16`, which uses their
low 16 bits. -/
def ip_header_bytes (cfg : config) (ipc : ip_config) (len : Nat) (ip : ip_addr)
    (protocol : Nat) (id : Int) (offset : Nat) (mf : Nat) (hdr_checksum : Nat) : List Nat :=
  let total_len := swap16 len
  let id16 := swap16 (id % 65536).toNat
  let flags_fragment :=
    (if mf ≠ 0 then ipc.IP_MORE_FRAGMENT ||| swap16 offset else 0 ||| swap16 offset) % 65536
  [(IP_VERSION_4 <<< 4) ||| (IP_HDR_SIZE / IP_HDR_LEN_PER_BYTE), 0,
    total_len &&& 0xFF, total_len >>> 8, id16 &&& 0xFF, id16 >>> 8,
    flags_fragment &&& 0xFF, flags_fragment >>> 8,
    ipc.IP_DEFALUT_TTL % 256, protocol % 256,
    hdr_checksum &&& 0xFF, hdr_checksum >>> 8] ++
    List.ofFn cfg.net_if_ip ++ List.ofFn ip

/-- The packet that `ip_fragment_out(buf, ip, protocol, id, offset, mf)` gives to
`arp_out`: the header, with the checksum of the header whose checksum field is zero,
in front of the bytes of `buf`. -/
def ip_fragment_out_packet (cfg : config) (ipc : ip_config) (buf : buf_t) (ip : ip_addr)
    (protocol : Nat) (id : Int) (offset : Nat) (mf : Nat) : buf_t :=
  let len := buf.length + IP_HDR_SIZE
  let checksum :=
    checksum16 (ip_header_bytes cfg ipc len ip protocol id offset mf 0) IP_HDR_SIZE
  ip_header_bytes cfg ipc len ip protocol id offset mf checksum ++ buf

/-- The function `ip_fragment_out(buf, ip, protocol, id, offset, mf)`: the header is
added to the buffer that `buf` points to, and the same pointer goes to `arp_out`. -/
def ip_fragment_out (cfg : config) (ipc : ip_config) (s : net_state) (buf : buf_ptr)
    (ip : ip_addr) (protocol : Nat) (id : Int) (offset : Nat) (mf : Nat) : net_state :=
  let packet := ip_fragment_out_packet cfg ipc (deref s buf) ip protocol id offset mf
  match buf with
  | .txbuf => arp_out cfg { s with txbuf := packet } .txbuf ip NET_PROTOCOL_IP
  | .other _ => arp_out cfg s (.other packet) ip NET_PROTOCOL_IP

/-! ## Concrete inputs used by the witnesses and the evaluations -/

/-- A configuration with a timeout of 60 seconds and the address 10.0.0.1. -/
def cfg_ex : config :=
  { ARP_TIMEOUT_SEC := 60
    DRIVER_IF_IP := ![10, 0, 0, 1]
    DRIVER_IF_MAC := ![2, 0, 0, 0, 0, 1]
    net_if_ip := ![10, 0, 0, 1] }

/-- The address 10.0.0.5. -/
def ip_a : ip_addr := ![10, 0, 0, 5]

/-- The address 10.0.0.9. -/
def ip_b : ip_addr := ![10, 0, 0, 9]

/-- A link address. -/
def mac_a : mac_addr := ![2, 0, 0, 0, 0, 5]

/-- Another link address. -/
def mac_b : mac_addr := ![2, 0, 0, 0, 0, 9]

/-- An invalid entry, as a zeroed table holds after `arp_init`. -/
def entry_invalid : arp_entry_t := ⟨.ARP_INVALID, 0, fun _ => 0, fun _ => 0⟩

/-- A table of three valid entries with the expiry timestamps 200, 150, 150. -/
def table_full : List arp_entry_t :=
  [⟨.ARP_VALID, 200, ![10, 0, 0, 2], mac_b⟩, ⟨.ARP_VALID, 150, ![10, 0, 0, 3], mac_b⟩,
    ⟨.ARP_VALID, 150, ![10, 0, 0, 4], mac_b⟩]

/-- A table of two entries: 10.0.0.5 valid with expiry timestamp 100, then an
invalid entry. -/
def table_a : List arp_entry_t := [⟨.ARP_VALID, 100, ip_a, mac_a⟩, entry_invalid]

/-- A state with the table `table_a`, nothing pending and nothing sent. -/
def state_ex : net_state :=
  { arp_table := table_a, arp_buf := ⟨[], fun _ => 0, 0, false⟩, sent := [], txbuf := [] }

/-- A state with the table `table_a`, a datagram for 10.0.0.9 pending and nothing sent. -/
def state_pending : net_state :=
  { arp_table := table_a, arp_buf := ⟨[7, 7], ip_b, NET_PROTOCOL_IP, true⟩, sent := [],
    txbuf := [] }

/-- A state with the table `table_a`, nothing pending, nothing sent, and the bytes
`1, 2, 3` of a datagram in the global `txbuf`. -/
def state_txbuf : net_state :=
  { arp_table := table_a, arp_buf := ⟨[], fun _ => 0, 0, false⟩, sent := [],
    txbuf := [1, 2, 3] }

/-- The bytes that the global `txbuf` holds after `arp_req(ip)`: the header to the
broadcast address with type `0x0806` and the 28 bytes of the request for `ip`. -/
def request_frame (cfg : config) (ip : ip_addr) : List Nat :=
  ethernet_header ether_broadcast_mac NET_PROTOCOL_ARP ++
    arp_pkt_bytes ⟨swap16 ARP_HW_ETHER, swap16 NET_PROTOCOL_IP, 6, 4, swap16 ARP_REQUEST,
      cfg.DRIVER_IF_MAC, cfg.DRIVER_IF_IP, fun _ => 0, ip⟩

/-- The 42 bytes of the frame that `arp_req` builds for 10.0.0.9 with `cfg_ex`: the
header to the broadcast address with type `0x0806` and the request. -/
def request_frame_bytes : List Nat :=
  [0xFF, 0xFF, 0xFF, 0xFF, 0xFF, 0xFF, 0x11, 0x22, 0x33, 0x44, 0x55, 0x66, 0x08, 0x06,
    0, 1, 8, 0, 6, 4, 0, 1, 2, 0, 0, 0, 0, 1, 10, 0, 0, 1, 0, 0, 0, 0, 0, 0, 10, 0, 0, 9]

/-- A table of two valid entries with the expiry timestamps 2147483700 and 2147483650,
as `arp_update` writes them from 19 January 2038 on (`2^31 = 2147483648`). -/
def table_2038 : List arp_entry_t :=
  [⟨.ARP_VALID, 2147483700, ip_a, mac_a⟩, ⟨.ARP_VALID, 2147483650, ip_b, mac_b⟩]

/-- A reply of 10.0.0.9 to this node. -/
def reply_ex : arp_pkt_t :=
  { hw_type := swap16 ARP_HW_ETHER
    pro_type := swap16 NET_PROTOCOL_IP
    hw_len := 6
    pro_len := 4
    opcode := swap16 ARP_REPLY
    sender_mac := mac_b
    sender_ip := ip_b
    target_mac := ![2, 0, 0, 0, 0, 1]
    target_ip := ![10, 0, 0, 1] }

/-- A request of 10.0.0.9 for the address 10.0.0.1 of this node. -/
def request_ex : arp_pkt_t := { reply_ex with opcode := swap16 ARP_REQUEST, target_mac := fun _ => 0 }

/-- A packet with the hardware length 8. -/
def bad_pkt_ex : arp_pkt_t := { reply_ex with hw_len := 8 }

/-- Values for the macros of ip.h, whose definitions the sources do not show: the
more-fragments bit as the field `flags_fragment` stores it, `swap16 (1 <<< 5) = 0x2000`,
and the time to live 64. -/
def ipc_ex : ip_config := { IP_MORE_FRAGMENT := 1 <<< 5, IP_DEFALUT_TTL := 64 }

/-- A 16-bit field of the header at byte offset `i` read in network byte order: high
byte first. -/
def net16 (buf : buf_t) (i : Nat) : Nat := 256 * hdr_byte buf i + hdr_byte buf (i + 1)

/-- A header of 20 bytes from 10.0.0.9 to 10.0.0.1: version 4, header length 5,
protocol ICMP, a correct header checksum, and the total length 19 in network byte
order (bytes `00 13`). -/
def datagram_len19 : buf_t :=
  [0x45, 0, 0, 19, 0, 0, 0, 0, 64, 1, 102, 225, 10, 0, 0, 9, 10, 0, 0, 1]

/-- A datagram from 10.0.0.1 to 10.0.0.1 with protocol UDP, a correct header checksum
and the payload `1, 2, 3`. -/
def datagram_udp : buf_t :=
  [0x45, 0, 0, 23, 0, 7, 0, 0, 64, 17, 102, 206, 10, 0, 0, 1, 10, 0, 0, 1, 1, 2, 3]

/-- The datagram `datagram_udp` with protocol 6 and the header checksum for it. -/
def datagram_tcp : buf_t :=
  [0x45, 0, 0, 23, 0, 7, 0, 0, 64, 6, 102, 217, 10, 0, 0, 1, 10, 0, 0, 1, 1, 2, 3]

/-! ## Notions used to state the theorems on the header checksum -/

/-- The weight of the byte at offset `j` in the sum of 16-bit words: 1 for the low
byte of a word, 256 for the high byte. -/
def byte_weight (j : Nat) : Nat := if j % 2 = 0 then 1 else 256

/-- The 16-bit value that the folding loop of `checksum16` ends with, in closed form:
0 for 0, else the residue modulo 65535 taken in the range 1 to 65535. -/
def fold16_value (sum : Nat) : Nat := if sum = 0 then 0 else (sum - 1) % 65535 + 1

/-- The datagram `buf` with bit `k` of the byte at offset `j` flipped. -/
def flip_bit (buf : buf_t) (j k : Nat) : buf_t := buf.set j (hdr_byte buf j ^^^ (1 <<< k))

/-! ## Theorems on ip.c: fragmenting send -/

theorem max_length_eq : max_length = 1480 := rfl

theorem loop_call_succ (ip : ip_addr) (protocol : Nat) (id : Int) (data : List Nat)
    (count j : Nat) :
    loop_call ip protocol id (data.drop max_length) (count + 1) j =
      loop_call ip protocol id data count (j + 1) := by
  unfold loop_call
  rw [List.drop_drop]
  have h1 : max_length + j * max_length = (j + 1) * max_length := by ring
  have h2 : count + 1 + j = count + (j + 1) := by omega
  rw [h1, h2]

theorem ip_out_loop_spec (ip : ip_addr) (protocol : Nat) (id : Int) :
    ∀ (fuel : Nat) (data : List Nat) (left count : Nat), left ≤ fuel →
      ip_out_loop ip protocol id fuel data left count =
        ((List.range (left / max_length)).map (loop_call ip protocol id data count),
          data.drop (left / max_length * max_length), left % max_length,
          count + left / max_length) := by
  intro fuel
  induction fuel with
  | zero =>
    intro data left count h
    have h0 : left = 0 := by omega
    subst h0
    simp [ip_out_loop]
  | succ n ih =>
    intro data left count h
    unfold ip_out_loop
    by_cases hge : left ≥ max_length
    · rw [if_pos hge]
      have hle : left - max_length ≤ n := by rw [max_length_eq] at *; omega
      rw [ih (data.drop max_length) (left - max_length) (count + 1) hle]
      have hdiv : left / max_length = (left - max_length) / max_length + 1 := by
        rw [max_length_eq] at *; omega
      have hmod : left % max_length = (left - max_length) % max_length := by
        rw [max_length_eq] at *; omega
      rw [hdiv, hmod, List.range_succ_eq_map]
      simp only [List.map_cons, List.map_map, Prod.mk.injEq]
      refine ⟨?_, ?_, trivial, by omega⟩
      · have hmap : List.map (loop_call ip protocol id (List.drop max_length data) (count + 1))
            (List.range ((left - max_length) / max_length)) =
            List.map (loop_call ip protocol id data count ∘ Nat.succ)
              (List.range ((left - max_length) / max_length)) := by
          apply List.map_congr_left
          intro j _
          exact loop_call_succ ip protocol id data count j
        rw [hmap]
        have hhead : loop_call ip protocol id data count 0 =
            ⟨List.take max_length data, ip, protocol, id,
              (count * max_length) >>> 3 % 65536, 1⟩ := by
          unfold loop_call
          rw [Nat.zero_mul, List.drop_zero, Nat.add_zero]
        rw [hhead]
      · rw [List.drop_drop]
        have h1 : max_length + (left - max_length) / max_length * max_length =
            ((left - max_length) / max_length + 1) * max_length := by ring
        rw [h1]
    · rw [if_neg hge]
      have hlt : left < max_length := by omega
      rw [Nat.div_eq_of_lt hlt, Nat.mod_eq_of_lt hlt]
      simp

theorem ip_out_calls (id : Int) (buf : buf_t) (ip : ip_addr) (protocol : Nat)
    (hgt : max_length < buf.length) (hlen : buf.length < 65536) :
    (ip_out id buf ip protocol).1 =
      (List.range (buf.length / max_length)).map (loop_call ip protocol id buf 0) ++
        (if buf.length % max_length > 0 then [last_call ip protocol id buf] else []) := by
  unfold ip_out
  rw [if_pos hgt]
  simp only [Nat.mod_eq_of_lt hlen]
  rw [ip_out_loop_spec ip protocol id buf.length buf buf.length 0 (Nat.le_refl _)]
  simp only [Nat.zero_add, last_call]

theorem offset_exact (j : Nat) (hj : j ≤ 44) :
    ((j * max_length) >>> 3) % 65536 = (j * max_length) >>> 3 ∧
      ((j * max_length) >>> 3) * 8 = j * max_length := by
  rw [max_length_eq, Nat.shiftRight_eq_div_pow]
  have h8 : (2 : Nat) ^ 3 = 8 := by norm_num
  rw [h8]
  omega

theorem flatten_chunks (m : Nat) (l : List Nat) :
    ∀ n : Nat, ((List.range n).map (fun j => (l.drop (j * m)).take m)).flatten = l.take (n * m) := by
  intro n
  induction n with
  | zero => simp
  | succ k ih =>
    rw [List.range_succ, List.map_append, List.flatten_append, ih]
    simp only [List.map_cons, List.map_nil, List.flatten_cons, List.flatten_nil, List.append_nil]
    rw [Nat.succ_mul, List.take_add]

theorem ip_out_calls_length (id : Int) (buf : buf_t) (ip : ip_addr) (protocol : Nat)
    (hgt : max_length < buf.length) (hlen : buf.length < 65536) :
    (ip_out id buf ip protocol).1.length =
      buf.length / max_length + (if buf.length % max_length > 0 then 1 else 0) := by
  rw [ip_out_calls id buf ip protocol hgt hlen]
  by_cases hr : buf.length % max_length > 0
  · simp [hr]
  · simp [hr]

theorem ip_out_calls_get (id : Int) (buf : buf_t) (ip : ip_addr) (protocol : Nat)
    (hgt : max_length < buf.length) (hlen : buf.length < 65536)
    (k : Nat) (hk : k < (ip_out id buf ip protocol).1.length) :
    (k < buf.length / max_length ∧
        (ip_out id buf ip protocol).1[k] = loop_call ip protocol id buf 0 k) ∨
      (k = buf.length / max_length ∧ 0 < buf.length % max_length ∧
        (ip_out id buf ip protocol).1[k] = last_call ip protocol id buf) := by
  have hcalls := ip_out_calls id buf ip protocol hgt hlen
  generalize (ip_out id buf ip protocol).1 = calls at hk hcalls
  subst hcalls
  by_cases hlt : k < buf.length / max_length
  · left
    refine ⟨hlt, ?_⟩
    rw [List.getElem_append_left (by simpa using hlt)]
    simp
  · right
    by_cases hr : buf.length % max_length > 0
    · have hkn : k = buf.length / max_length := by
        simp [hr] at hk
        omega
      refine ⟨hkn, hr, ?_⟩
      rw [List.getElem_append_right (by simpa using Nat.le_of_not_lt hlt)]
      simp [hr]
    · simp [hr] at hk
      omega

theorem ip_out_flatten (id : Int) (buf : buf_t) (ip : ip_addr) (protocol : Nat)
    (hgt : max_length < buf.length) (hlen : buf.length < 65536) :
    ((ip_out id buf ip protocol).1.map (fun c => c.buf)).flatten = buf := by
  rw [ip_out_calls id buf ip protocol hgt hlen, List.map_append, List.flatten_append,
    List.map_map]
  have hchunks : (List.map ((fun c => c.buf) ∘ loop_call ip protocol id buf 0)
      (List.range (buf.length / max_length))).flatten =
      buf.take (buf.length / max_length * max_length) :=
    flatten_chunks max_length buf (buf.length / max_length)
  rw [hchunks]
  have hsplit := Nat.div_add_mod buf.length max_length
  by_cases hr : buf.length % max_length > 0
  · rw [if_pos hr]
    simp only [List.map_cons, List.map_nil, List.flatten_cons, List.flatten_nil,
      List.append_nil, last_call]
    rw [List.take_of_length_le (i := buf.length % max_length), List.take_append_drop]
    rw [List.length_drop]
    rw [Nat.mul_comm] at hsplit
    omega
  · rw [if_neg hr]
    simp only [List.map_nil, List.flatten_nil, List.append_nil]
    apply List.take_of_length_le
    rw [Nat.mul_comm] at hsplit
    omega

/-- C1: every payload longer than `max_length` (1480), of a length that is a 16-bit
value as `left_length` is, is cut by `ip_out` into consecutive slices: the fragment
payloads concatenate to the payload, the `k`-th call carries offset
`(k * max_length) >> 3`, eight times that offset is the position `k * max_length` at
which its slice starts, and every fragment but the last is exactly `max_length` bytes
long. -/
theorem ip_out_fragments_are_consecutive_slices (id : Int) (buf : buf_t) (ip : ip_addr)
    (protocol : Nat) (hgt : max_length < buf.length) (hlen : buf.length < 65536) :
    ((ip_out id buf ip protocol).1.map (fun c => c.buf)).flatten = buf ∧
      ∀ (k : Nat) (hk : k < (ip_out id buf ip protocol).1.length),
        ((ip_out id buf ip protocol).1.get ⟨k, hk⟩).offset = (k * max_length) >>> 3 ∧
        ((ip_out id buf ip protocol).1.get ⟨k, hk⟩).offset * 8 = k * max_length ∧
        ((ip_out id buf ip protocol).1.get ⟨k, hk⟩).buf =
          (buf.drop (((ip_out id buf ip protocol).1.get ⟨k, hk⟩).offset * 8)).take max_length ∧
        (k + 1 < (ip_out id buf ip protocol).1.length →
          ((ip_out id buf ip protocol).1.get ⟨k, hk⟩).buf.length = max_length) := by
  refine ⟨ip_out_flatten id buf ip protocol hgt hlen, ?_⟩
  intro k hk
  have hlength := ip_out_calls_length id buf ip protocol hgt hlen
  have hsplit := Nat.div_add_mod buf.length max_length
  have hn : buf.length / max_length ≤ 44 := by
    rw [max_length_eq]; omega
  simp only [List.get_eq_getElem]
  rcases ip_out_calls_get id buf ip protocol hgt hlen k hk with ⟨hlt, hget⟩ | ⟨hkn, hr, hget⟩
  · rw [hget]
    have hoff := offset_exact k (by omega)
    simp only [loop_call, Nat.zero_add]
    rw [hoff.1, hoff.2]
    refine ⟨rfl, rfl, rfl, ?_⟩
    intro _
    rw [List.length_take, List.length_drop]
    have : (k + 1) * max_length ≤ buf.length / max_length * max_length :=
      Nat.mul_le_mul_right _ hlt
    rw [Nat.mul_comm (buf.length / max_length)] at this
    rw [Nat.add_mul] at this
    omega
  · rw [hget]
    have hoff := offset_exact k (by omega)
    simp only [last_call]
    rw [← hkn, hoff.1, hoff.2]
    refine ⟨rfl, rfl, ?_, ?_⟩
    · have hmod_lt : buf.length % max_length < max_length :=
        Nat.mod_lt _ (by rw [max_length_eq]; omega)
      rw [List.take_of_length_le (i := max_length), List.take_of_length_le]
      all_goals rw [List.length_drop]
      all_goals rw [Nat.mul_comm, ← hkn] at hsplit
      all_goals omega
    · intro hk1
      rw [if_pos hr] at hlength
      omega

theorem length_replicate_gt (n b : Nat) (h : 1480 < n) :
    max_length < (List.replicate n b).length := by
  rw [List.length_replicate, max_length_eq]; exact h

theorem length_replicate_lt (n b : Nat) (h : n < 65536) :
    (List.replicate n b).length < 65536 := by
  rw [List.length_replicate]; exact h

/-- Witness for C1: a payload of 1481 bytes, one byte more than `max_length`. -/
theorem ip_out_fragments_are_consecutive_slices_witness :
    max_length < (List.replicate 1481 7).length ∧ (List.replicate 1481 7).length < 65536 ∧
      ((ip_out 0 (List.replicate 1481 7) (fun _ => 0) 17).1.map (fun c => c.buf)).flatten =
        List.replicate 1481 7 :=
  ⟨length_replicate_gt 1481 7 (by omega), length_replicate_lt 1481 7 (by omega),
    (ip_out_fragments_are_consecutive_slices 0 (List.replicate 1481 7) (fun _ => 0) 17
      (length_replicate_gt 1481 7 (by omega)) (length_replicate_lt 1481 7 (by omega))).1⟩

theorem ip_out_flags_of_multiple (id : Int) (buf : buf_t) (ip : ip_addr) (protocol : Nat)
    (hgt : max_length < buf.length) (hlen : buf.length < 65536)
    (hmul : buf.length % max_length = 0) :
    (ip_out id buf ip protocol).1.map (fun c => c.mf) =
      List.replicate (buf.length / max_length) 1 := by
  rw [ip_out_calls id buf ip protocol hgt hlen, hmul]
  simp only [gt_iff_lt, Nat.lt_irrefl, if_false, List.append_nil, List.map_map]
  apply List.ext_getElem
  · simp
  · intro n h1 h2
    simp [loop_call]

/-- C2 (failing input): for a payload of 2960 = 2 * 1480 bytes `ip_out` makes two calls
of `ip_fragment_out` and both carry the more-fragments flag 1, the last one included. -/
theorem ip_out_exact_multiple_last_flag_set :
    (ip_out 0 (List.replicate 2960 0) (fun _ => 0) 17).1.map (fun c => c.mf) = [1, 1] := by
  have h := ip_out_flags_of_multiple 0 (List.replicate 2960 0) (fun _ => 0) 17
    (length_replicate_gt 2960 0 (by omega)) (length_replicate_lt 2960 0 (by omega))
    (by rw [List.length_replicate, max_length_eq])
  rw [h, List.length_replicate, max_length_eq]
  rfl

/-! ## Theorems on arp.c: the address table -/

theorem arp_sweep_length (cfg : config) (now : Int) (t : List arp_entry_t) :
    (arp_sweep cfg now t).length = t.length := by
  simp [arp_sweep]

theorem arp_sweep_eq_self (cfg : config) (now : Int) (t : List arp_entry_t)
    (h : ∀ e ∈ t, ¬ (now - e.timeout > cfg.ARP_TIMEOUT_SEC)) : arp_sweep cfg now t = t := by
  unfold arp_sweep
  conv_rhs => rw [← List.map_id t]
  apply List.map_congr_left
  intro e he
  simp [h e he]

theorem first_invalid_none (t : List arp_entry_t) :
    first_invalid t = none ↔ ∀ e ∈ t, e.state ≠ .ARP_INVALID := by
  induction t with
  | nil => simp [first_invalid]
  | cons e es ih =>
    unfold first_invalid
    by_cases h : e.state = .ARP_INVALID
    · simp [h]
    · simp [h, ih]

theorem first_invalid_some (t : List arp_entry_t) (i : Nat) (h : first_invalid t = some i) :
    ∃ hi : i < t.length, (t.get ⟨i, hi⟩).state = .ARP_INVALID ∧
      ∀ x ∈ t.take i, x.state ≠ .ARP_INVALID := by
  induction t generalizing i with
  | nil => simp [first_invalid] at h
  | cons e es ih =>
    unfold first_invalid at h
    by_cases he : e.state = .ARP_INVALID
    · rw [if_pos he] at h
      cases h
      exact ⟨by simp, by simpa using he, by simp⟩
    · rw [if_neg he] at h
      cases hf : first_invalid es with
      | none => rw [hf] at h; simp at h
      | some j =>
        rw [hf] at h
        simp only [Option.map_some', Option.some.injEq] at h
        subst h
        obtain ⟨hj, hst, hpre⟩ := ih j hf
        refine ⟨by simpa using hj, by simpa using hst, ?_⟩
        intro x hx
        simp only [List.take_succ_cons, List.mem_cons] at hx
        rcases hx with rfl | hx
        · exact he
        · exact hpre x hx

theorem longest_loop_spec :
    ∀ (es pre : List arp_entry_t) (index : Nat) (m : Int), index < pre.length →
      (pre.map (fun e => e.timeout))[index]? = some m →
      (∀ x ∈ pre, m ≤ x.timeout) → (∀ x ∈ pre.take index, m < x.timeout) →
      (∀ x ∈ es, to_int x.timeout = x.timeout) →
      longest_loop es pre.length index m < (pre ++ es).length ∧
        ∃ m', ((pre ++ es).map (fun e => e.timeout))[longest_loop es pre.length index m]? = some m' ∧
          (∀ x ∈ pre ++ es, m' ≤ x.timeout) ∧
          (∀ x ∈ (pre ++ es).take (longest_loop es pre.length index m), m' < x.timeout) := by
  intro es
  induction es with
  | nil =>
    intro pre index m hidx hget hmin hstrict _
    simp only [longest_loop, List.append_nil]
    exact ⟨hidx, m, hget, hmin, hstrict⟩
  | cons e es ih =>
    intro pre index m hidx hget hmin hstrict hrange
    have hpre : pre ++ e :: es = (pre ++ [e]) ++ es := by simp
    have hlen : (pre ++ [e]).length = pre.length + 1 := by simp
    have hrange' : ∀ x ∈ es, to_int x.timeout = x.timeout :=
      fun x hx => hrange x (List.mem_cons_of_mem _ hx)
    unfold longest_loop
    by_cases hlt : e.timeout < m
    · rw [if_pos hlt, hrange e (List.mem_cons_self _ _), hpre, ← hlen]
      apply ih (pre ++ [e]) pre.length e.timeout
      · simp
      · simp
      · intro x hx
        rcases List.mem_append.1 hx with hx | hx
        · have := hmin x hx; omega
        · simp only [List.mem_singleton] at hx
          subst hx; exact Int.le_refl _
      · intro x hx
        rw [List.take_left] at hx
        have := hmin x hx; omega
      · exact hrange'
    · rw [if_neg hlt, hpre, ← hlen]
      apply ih (pre ++ [e]) index m
      · simp; omega
      · rw [List.map_append, List.getElem?_append_left (by simpa using hidx)]
        exact hget
      · intro x hx
        rcases List.mem_append.1 hx with hx | hx
        · exact hmin x hx
        · simp only [List.mem_singleton] at hx
          subst hx; omega
      · intro x hx
        rw [List.take_append_of_le_length (Nat.le_of_lt hidx)] at hx
        exact hstrict x hx
      · exact hrange'

theorem longest_index_spec (t : List arp_entry_t) (hne : t ≠ [])
    (hrange : ∀ x ∈ t, to_int x.timeout = x.timeout) :
    longest_index t < t.length ∧
      ∃ m', (t.map (fun e => e.timeout))[longest_index t]? = some m' ∧
        (∀ x ∈ t, m' ≤ x.timeout) ∧ (∀ x ∈ t.take (longest_index t), m' < x.timeout) := by
  cases t with
  | nil => exact absurd rfl hne
  | cons e es =>
    have hdef : longest_index (e :: es) = longest_loop es 1 0 e.timeout := by
      rw [← hrange e (List.mem_cons_self _ _)]; rfl
    rw [hdef]
    have h := longest_loop_spec es [e] 0 e.timeout (by simp) (by simp) (by simp) (by simp)
      (fun x hx => hrange x (List.mem_cons_of_mem _ hx))
    simpa using h

theorem to_int_of_range (x : Int) (h : -2147483648 ≤ x ∧ x < 2147483648) : to_int x = x := by
  unfold to_int
  omega

theorem arp_update_of_full (cfg : config) (now : Int) (t : List arp_entry_t) (ip : ip_addr)
    (mac : mac_addr) (state : arp_state_t)
    (hvalid : ∀ e ∈ t, e.state = .ARP_VALID)
    (hlive : ∀ e ∈ t, ¬ (now - e.timeout > cfg.ARP_TIMEOUT_SEC)) :
    arp_update cfg now t ip mac state =
      t.set (longest_index t) ⟨state, now + cfg.ARP_TIMEOUT_SEC, ip, mac⟩ := by
  unfold arp_update
  rw [arp_sweep_eq_self cfg now t hlive]
  have hnone : first_invalid t = none := by
    rw [first_invalid_none]
    intro e he
    rw [hvalid e he]
    decide
  simp only [hnone]

/-- Where the eviction of `arp_update` is right: when every entry is Valid, none is
expired by the sweep at `now` and the expiry timestamps lie in the range of `int`,
`arp_update(ip, mac, ARP_VALID)` overwrites exactly one entry, the one at the lowest
index `k` among those with the smallest expiry timestamp, with `ip`, `mac`, Valid and
expiry `now + ARP_TIMEOUT_SEC`; all other entries stay as they were. -/
theorem arp_update_evicts_smallest_expiry (cfg : config) (now : Int) (t : List arp_entry_t)
    (ip : ip_addr) (mac : mac_addr) (hne : t ≠ [])
    (hvalid : ∀ e ∈ t, e.state = .ARP_VALID)
    (hlive : ∀ e ∈ t, ¬ (now - e.timeout > cfg.ARP_TIMEOUT_SEC))
    (hrange : ∀ e ∈ t, -2147483648 ≤ e.timeout ∧ e.timeout < 2147483648) :
    ∃ k, ∃ hk : k < t.length,
      (∀ (j : Nat) (hj : j < t.length), (t.get ⟨k, hk⟩).timeout ≤ (t.get ⟨j, hj⟩).timeout) ∧
      (∀ (j : Nat) (hj : j < k),
        (t.get ⟨k, hk⟩).timeout < (t.get ⟨j, Nat.lt_trans hj hk⟩).timeout) ∧
      arp_update cfg now t ip mac .ARP_VALID =
        t.set k ⟨.ARP_VALID, now + cfg.ARP_TIMEOUT_SEC, ip, mac⟩ := by
  obtain ⟨hk, m', hget, hmin, hstrict⟩ :=
    longest_index_spec t hne (fun x hx => to_int_of_range x.timeout (hrange x hx))
  refine ⟨longest_index t, hk, ?_, ?_, arp_update_of_full cfg now t ip mac _ hvalid hlive⟩
  all_goals
    have hm : (t.get ⟨longest_index t, hk⟩).timeout = m' := by
      rw [List.getElem?_map, List.getElem?_eq_getElem hk] at hget
      simpa using hget
  · intro j hj
    rw [hm]
    exact hmin _ (List.get_mem t j hj)
  · intro j hj
    rw [hm]
    apply hstrict
    rw [List.mem_take_iff_getElem]
    exact ⟨j, by omega, rfl⟩

/-- An instance of the eviction within the range of `int`: a full table with expiry
timestamps 200, 150, 150 at time 160. -/
theorem arp_update_evicts_smallest_expiry_witness :
    ∃ k, ∃ hk : k < table_full.length,
      (∀ (j : Nat) (hj : j < table_full.length),
        (table_full.get ⟨k, hk⟩).timeout ≤ (table_full.get ⟨j, hj⟩).timeout) ∧
      (∀ (j : Nat) (hj : j < k),
        (table_full.get ⟨k, hk⟩).timeout < (table_full.get ⟨j, Nat.lt_trans hj hk⟩).timeout) ∧
      arp_update cfg_ex 160 table_full ip_a mac_a .ARP_VALID =
        table_full.set k ⟨.ARP_VALID, 160 + cfg_ex.ARP_TIMEOUT_SEC, ip_a, mac_a⟩ :=
  arp_update_evicts_smallest_expiry cfg_ex 160 table_full ip_a mac_a (by decide) (by decide)
    (by decide) (by decide)

/-- C3 (failing input): both entries of `table_2038` are Valid and not expired by the
sweep at time 2147483645, and entry 1 has the smaller expiry timestamp (2147483650
against 2147483700).  `int longest = arp_table[0].timeout` turns 2147483700 into
-2147483596, the comparison `arp_table[1].timeout < longest` fails, and `arp_update`
overwrites entry 0; entry 1 stays. -/
theorem arp_update_evicts_later_expiry :
    (∀ e ∈ table_2038, e.state = .ARP_VALID) ∧
      (∀ e ∈ table_2038, ¬ (2147483645 - e.timeout > cfg_ex.ARP_TIMEOUT_SEC)) ∧
      to_int 2147483700 = -2147483596 ∧
      arp_update cfg_ex 2147483645 table_2038 ![10, 0, 0, 7] mac_a .ARP_VALID =
        [⟨.ARP_VALID, 2147483705, ![10, 0, 0, 7], mac_a⟩,
          ⟨.ARP_VALID, 2147483650, ip_b, mac_b⟩] := by
  decide

/-- C4 (failing input): entry 0 is Valid for 10.0.0.5 with expiry timestamp 100; after
`arp_update` for 10.0.0.9 at time 101 the entry is still Valid with its old mapping and
`arp_lookup` of 10.0.0.5 returns its old link address. -/
theorem arp_update_keeps_entry_past_expiry :
    (arp_update cfg_ex 101 table_a ip_b mac_b .ARP_VALID)[0]? =
        some ⟨.ARP_VALID, 100, ip_a, mac_a⟩ ∧
      arp_lookup (arp_update cfg_ex 101 table_a ip_b mac_b .ARP_VALID) ip_a = some mac_a := by
  decide

theorem arp_lookup_none (t : List arp_entry_t) (ip : ip_addr) :
    arp_lookup t ip = none ↔ ∀ e ∈ t, ¬ (e.state = .ARP_VALID ∧ e.ip = ip) := by
  induction t with
  | nil => simp [arp_lookup]
  | cons e es ih =>
    unfold arp_lookup
    by_cases h : e.state = .ARP_VALID ∧ e.ip = ip
    · simp [h]
    · rw [if_neg h, ih]
      simp only [List.mem_cons, forall_eq_or_imp]
      exact ⟨fun hh => ⟨h, hh⟩, fun hh => hh.2⟩

theorem arp_sweep_mem (cfg : config) (now : Int) (t : List arp_entry_t) (x : arp_entry_t)
    (hx : x ∈ arp_sweep cfg now t) :
    x ∈ t ∨ (x.state = .ARP_INVALID ∧ ∃ e ∈ t, x.ip = e.ip) := by
  unfold arp_sweep at hx
  rw [List.mem_map] at hx
  obtain ⟨e, he, hxe⟩ := hx
  by_cases h : now - e.timeout > cfg.ARP_TIMEOUT_SEC
  · rw [if_pos h] at hxe
    right
    subst hxe
    exact ⟨rfl, e, he, rfl⟩
  · rw [if_neg h] at hxe
    left
    subst hxe
    exact he

theorem arp_sweep_none (cfg : config) (now : Int) (t : List arp_entry_t) (ip : ip_addr)
    (h : arp_lookup t ip = none) : arp_lookup (arp_sweep cfg now t) ip = none := by
  rw [arp_lookup_none] at *
  intro x hx
  rcases arp_sweep_mem cfg now t x hx with hmem | ⟨hinv, _⟩
  · exact h x hmem
  · intro hv
    rw [hinv] at hv
    exact absurd hv.1 (by decide)

theorem longest_loop_lt :
    ∀ (es : List arp_entry_t) (i index : Nat) (m : Int), index < i →
      longest_loop es i index m < i + es.length := by
  intro es
  induction es with
  | nil => intro i index m h; simpa [longest_loop] using h
  | cons e es ih =>
    intro i index m h
    unfold longest_loop
    by_cases hlt : e.timeout < m
    · rw [if_pos hlt]
      have := ih (i + 1) i (to_int e.timeout) (by omega)
      simp only [List.length_cons]; omega
    · rw [if_neg hlt]
      have := ih (i + 1) index m (by omega)
      simp only [List.length_cons]; omega

theorem longest_index_lt (t : List arp_entry_t) (hne : t ≠ []) :
    longest_index t < t.length := by
  cases t with
  | nil => exact absurd rfl hne
  | cons e es =>
    have := longest_loop_lt es 1 0 (to_int e.timeout) (by omega)
    simp only [longest_index, List.length_cons]
    omega

/-- Every call of `arp_update` on a table that is not empty writes the new entry
into one slot of the swept table. -/
theorem arp_update_eq_set (cfg : config) (now : Int) (t : List arp_entry_t) (ip : ip_addr)
    (mac : mac_addr) (state : arp_state_t) (hne : t ≠ []) :
    ∃ i, i < (arp_sweep cfg now t).length ∧
      arp_update cfg now t ip mac state =
        (arp_sweep cfg now t).set i ⟨state, now + cfg.ARP_TIMEOUT_SEC, ip, mac⟩ := by
  cases hf : first_invalid (arp_sweep cfg now t) with
  | some i =>
    obtain ⟨hi, _, _⟩ := first_invalid_some _ i hf
    refine ⟨i, hi, ?_⟩
    simp only [arp_update, hf]
  | none =>
    refine ⟨longest_index (arp_sweep cfg now t), ?_, ?_⟩
    swap
    · simp only [arp_update, hf]
    apply longest_index_lt
    intro hnil
    have := arp_sweep_length cfg now t
    rw [hnil] at this
    exact hne (List.length_eq_zero.1 this.symm)

theorem arp_lookup_set (t : List arp_entry_t) (ip : ip_addr) (mac : mac_addr) (tm : Int) :
    ∀ (i : Nat), i < t.length →
      (∀ e ∈ t, e.state = .ARP_VALID → e.ip = ip → e.mac = mac) →
      arp_lookup (t.set i ⟨.ARP_VALID, tm, ip, mac⟩) ip = some mac := by
  induction t with
  | nil => intro i hi; simp at hi
  | cons e es ih =>
    intro i hi hmac
    cases i with
    | zero => simp [arp_lookup]
    | succ j =>
      rw [List.set_cons_succ]
      unfold arp_lookup
      by_cases h : e.state = .ARP_VALID ∧ e.ip = ip
      · rw [if_pos h, hmac e (List.mem_cons_self _ _) h.1 h.2]
      · rw [if_neg h]
        exact ih j (by simpa using hi) (fun x hx => hmac x (List.mem_cons_of_mem _ hx))

theorem arp_update_then_lookup (cfg : config) (now : Int) (t : List arp_entry_t)
    (ip : ip_addr) (mac : mac_addr) (hne : t ≠ [])
    (hsame : ∀ e ∈ arp_sweep cfg now t, e.state = .ARP_VALID → e.ip = ip → e.mac = mac) :
    arp_lookup (arp_update cfg now t ip mac .ARP_VALID) ip = some mac := by
  obtain ⟨i, hi, hset⟩ := arp_update_eq_set cfg now t ip mac .ARP_VALID hne
  rw [hset]
  exact arp_lookup_set _ ip mac _ i hi hsame

theorem pairwise_set {α : Type} (R : α → α → Prop) (new : α) :
    ∀ (l : List α) (i : Nat), l.Pairwise R → (∀ x ∈ l, R x new ∧ R new x) →
      (l.set i new).Pairwise R := by
  intro l
  induction l with
  | nil => intro i _ _; simp
  | cons a as ih =>
    intro i hp hnew
    rw [List.pairwise_cons] at hp
    cases i with
    | zero =>
      rw [List.set_cons_zero, List.pairwise_cons]
      exact ⟨fun x hx => (hnew x (List.mem_cons_of_mem _ hx)).2, hp.2⟩
    | succ j =>
      rw [List.set_cons_succ, List.pairwise_cons]
      refine ⟨?_, ih j hp.2 (fun x hx => hnew x (List.mem_cons_of_mem _ hx))⟩
      intro x hx
      rcases List.mem_or_eq_of_mem_set hx with hmem | heq
      · exact hp.1 x hmem
      · rw [heq]
        exact (hnew a (List.mem_cons_self _ _)).1

theorem arp_sweep_distinct (cfg : config) (now : Int) (t : List arp_entry_t)
    (h : valid_ips_distinct t) : valid_ips_distinct (arp_sweep cfg now t) := by
  unfold valid_ips_distinct arp_sweep at *
  rw [List.pairwise_map]
  refine List.Pairwise.imp ?_ h
  intro a b hab hcon
  apply hab
  by_cases ha : now - a.timeout > cfg.ARP_TIMEOUT_SEC
  · rw [if_pos ha] at hcon
    exact absurd hcon.1 (by simp)
  · by_cases hb : now - b.timeout > cfg.ARP_TIMEOUT_SEC
    · rw [if_pos hb] at hcon
      exact absurd hcon.2.1 (by simp)
    · rw [if_neg ha, if_neg hb] at hcon
      exact hcon

theorem arp_update_distinct (cfg : config) (now : Int) (t : List arp_entry_t) (ip : ip_addr)
    (mac : mac_addr) (h : valid_ips_distinct t)
    (hfresh : arp_lookup (arp_sweep cfg now t) ip = none) :
    valid_ips_distinct (arp_update cfg now t ip mac .ARP_VALID) := by
  by_cases hne : t = []
  · subst hne
    simp [arp_update, arp_sweep, first_invalid, longest_index, valid_ips_distinct]
  · obtain ⟨i, _, hset⟩ := arp_update_eq_set cfg now t ip mac .ARP_VALID hne
    rw [hset]
    apply pairwise_set
    · exact arp_sweep_distinct cfg now t h
    · rw [arp_lookup_none] at hfresh
      intro x hx
      constructor
      · intro hcon
        exact hfresh x hx ⟨hcon.1, hcon.2.2⟩
      · intro hcon
        exact hfresh x hx ⟨hcon.2.1, hcon.2.2.symm⟩

theorem arp_updates_distinct (cfg : config) (calls : List arp_call) :
    ∀ t : List arp_entry_t, valid_ips_distinct t → calls_fresh cfg t calls = true →
      valid_ips_distinct (arp_updates cfg t calls) := by
  induction calls with
  | nil => intro t h _; simpa [arp_updates] using h
  | cons c cs ih =>
    intro t h hfresh
    simp only [calls_fresh, Bool.and_eq_true, Option.isNone_iff_eq_none] at hfresh
    have hstep := arp_update_distinct cfg c.now t c.ip c.mac h hfresh.1
    have := ih _ hstep hfresh.2
    simpa [arp_updates] using this

/-- The request that `arp_req` broadcasts for `ip`, and the frame that it leaves in the
global `txbuf`. -/
theorem arp_req_sent (cfg : config) (s : net_state) (ip : ip_addr) :
    arp_req cfg s ip =
      { s with
        sent := s.sent ++
          [⟨ether_broadcast_mac, ethernet_src, 0x08, 0x06,
            .arp ⟨swap16 ARP_HW_ETHER, swap16 NET_PROTOCOL_IP, 6, 4, swap16 ARP_REQUEST,
              cfg.DRIVER_IF_MAC, cfg.DRIVER_IF_IP, fun _ => 0, ip⟩⟩]
        txbuf := request_frame cfg ip } := by
  simp only [arp_req, ethernet_out, arp_init_pkt, NET_PROTOCOL_ARP, NET_MAC_LEN, NET_IP_LEN,
    request_frame]
  rfl

/-- What `arp_out` does when the lookup fails, for either kind of pointer: the pending
slot gets the bytes that `buf` points to after `arp_req` has run. -/
theorem arp_out_none (cfg : config) (s : net_state) (buf : buf_ptr) (ip : ip_addr)
    (protocol : Nat) (hnone : arp_lookup s.arp_table ip = none) :
    arp_out cfg s buf ip protocol =
      { arp_table := s.arp_table
        arp_buf :=
          ⟨match buf with
            | .txbuf => request_frame cfg ip
            | .other bytes => bytes,
            ip, protocol, true⟩
        sent := s.sent ++
          [⟨ether_broadcast_mac, ethernet_src, 0x08, 0x06,
            .arp ⟨swap16 ARP_HW_ETHER, swap16 NET_PROTOCOL_IP, 6, 4, swap16 ARP_REQUEST,
              cfg.DRIVER_IF_MAC, cfg.DRIVER_IF_IP, fun _ => 0, ip⟩⟩]
        txbuf := request_frame cfg ip } := by
  simp only [arp_out, hnone, arp_req_sent]
  cases buf <;> rfl

/-- For a buffer of the caller that is not the global `txbuf`: when `arp_lookup(ip)`
finds nothing, `arp_out(buf, ip, protocol)` leaves the pending slot equal to
`(buf, ip, protocol, valid)` whatever it held, leaves the table as it was and sends
one frame: to the broadcast address with type `0x0806`, an ARP packet with opcode
Request, the configured address and link address as sender, target address `ip` and a
zero target link address. -/
theorem arp_out_unresolved (cfg : config) (s : net_state) (buf : buf_t) (ip : ip_addr)
    (protocol : Nat) (hnone : arp_lookup s.arp_table ip = none) :
    (arp_out cfg s (.other buf) ip protocol).arp_buf = ⟨buf, ip, protocol, true⟩ ∧
      (arp_out cfg s (.other buf) ip protocol).arp_table = s.arp_table ∧
      (arp_out cfg s (.other buf) ip protocol).sent = s.sent ++
        [⟨ether_broadcast_mac, ethernet_src, 0x08, 0x06,
          .arp ⟨swap16 ARP_HW_ETHER, swap16 NET_PROTOCOL_IP, 6, 4, swap16 ARP_REQUEST,
            cfg.DRIVER_IF_MAC, cfg.DRIVER_IF_IP, fun _ => 0, ip⟩⟩] := by
  rw [arp_out_none cfg s (.other buf) ip protocol hnone]
  exact ⟨rfl, rfl, rfl⟩

/-- When `buf` is the global `txbuf`, as on every call path from `icmp_in` and
`icmp_unreachable`, and `arp_lookup(ip)` finds nothing, `arp_out(buf, ip, protocol)`
leaves in the pending slot the frame of the ARP request that `arp_req` has just built
in `txbuf`, whatever `txbuf` held before. -/
theorem arp_out_txbuf_unresolved (cfg : config) (s : net_state) (ip : ip_addr)
    (protocol : Nat) (hnone : arp_lookup s.arp_table ip = none) :
    (arp_out cfg s .txbuf ip protocol).arp_buf =
      ⟨request_frame cfg ip, ip, protocol, true⟩ := by
  rw [arp_out_none cfg s .txbuf ip protocol hnone]

/-- C8 (failing input): `txbuf` holds the datagram `1, 2, 3` and the table has no entry
for 10.0.0.9; after `arp_out(&txbuf, 10.0.0.9, NET_PROTOCOL_IP)` the pending slot holds
the 42 bytes of the frame of the ARP request, not the datagram. -/
theorem arp_out_txbuf_pending_is_request :
    state_txbuf.txbuf = [1, 2, 3] ∧ arp_lookup state_txbuf.arp_table ip_b = none ∧
      (arp_out cfg_ex state_txbuf .txbuf ip_b NET_PROTOCOL_IP).arp_buf.buf =
        request_frame_bytes ∧
      (arp_out cfg_ex state_txbuf .txbuf ip_b NET_PROTOCOL_IP).arp_buf.buf.length = 42 ∧
      (arp_out cfg_ex state_txbuf .txbuf ip_b NET_PROTOCOL_IP).arp_buf.buf ≠ [1, 2, 3] ∧
      (arp_out cfg_ex state_txbuf .txbuf ip_b NET_PROTOCOL_IP).arp_buf.valid = true := by
  decide

theorem arp_in_pending (cfg : config) (now : Int) (s : net_state) (pkt : arp_pkt_t)
    (hne : s.arp_table ≠ []) (hvalid : arp_in_rejects pkt = false)
    (hpend : s.arp_buf.valid = true)
    (hnone : arp_lookup s.arp_table pkt.sender_ip = none) :
    arp_in cfg now s pkt =
      { arp_table := arp_update cfg now s.arp_table pkt.sender_ip pkt.sender_mac .ARP_VALID
        arp_buf :=
          { s.arp_buf with
            buf := ethernet_header pkt.sender_mac s.arp_buf.protocol ++ s.arp_buf.buf
            valid := false }
        sent := s.sent ++
          [⟨pkt.sender_mac, ethernet_src, (s.arp_buf.protocol &&& 0xFF00) >>> 8,
            s.arp_buf.protocol &&& 0x00FF, .raw s.arp_buf.buf⟩]
        txbuf := s.txbuf } := by
  have hlook : arp_lookup
      (arp_update cfg now s.arp_table pkt.sender_ip pkt.sender_mac .ARP_VALID) pkt.sender_ip =
      some pkt.sender_mac := by
    apply arp_update_then_lookup cfg now s.arp_table _ _ hne
    have hs := arp_sweep_none cfg now s.arp_table pkt.sender_ip hnone
    rw [arp_lookup_none] at hs
    intro e he hv hip
    exact absurd ⟨hv, hip⟩ (hs e he)
  simp only [arp_in, hvalid, hpend, hlook, ethernet_out]
  rfl

/-- The resolution round trip for either kind of pointer: when `arp_lookup(ip)` finds
nothing, `arp_out(buf, ip, protocol)` sends one frame, the broadcast ARP request for
`ip`, and leaves the pending slot valid; when `arp_in` then gets a packet that passes
its check (a Reply in particular) with sender address `ip`, the pending slot becomes
invalid and one frame is sent to the sender's link address with the type bytes of
`protocol`.  That frame carries the bytes of `buf` when `buf` is a buffer of the
caller, and the frame of the ARP request when `buf` is the global `txbuf`. -/
theorem arp_resolution_round_trip (cfg : config) (now : Int) (s : net_state) (buf : buf_ptr)
    (ip : ip_addr) (protocol : Nat) (pkt : arp_pkt_t) (hne : s.arp_table ≠ [])
    (hnone : arp_lookup s.arp_table ip = none) (hvalid : arp_in_rejects pkt = false)
    (hip : pkt.sender_ip = ip) :
    (arp_out cfg s buf ip protocol).sent = s.sent ++
        [⟨ether_broadcast_mac, ethernet_src, 0x08, 0x06,
          .arp ⟨swap16 ARP_HW_ETHER, swap16 NET_PROTOCOL_IP, 6, 4, swap16 ARP_REQUEST,
            cfg.DRIVER_IF_MAC, cfg.DRIVER_IF_IP, fun _ => 0, ip⟩⟩] ∧
      (arp_out cfg s buf ip protocol).arp_buf.valid = true ∧
      (arp_in cfg now (arp_out cfg s buf ip protocol) pkt).arp_buf.valid = false ∧
      (arp_in cfg now (arp_out cfg s buf ip protocol) pkt).sent =
        (arp_out cfg s buf ip protocol).sent ++
          [⟨pkt.sender_mac, ethernet_src, (protocol &&& 0xFF00) >>> 8, protocol &&& 0x00FF,
            .raw (match buf with
              | .txbuf => request_frame cfg ip
              | .other bytes => bytes)⟩] := by
  have hout := arp_out_none cfg s buf ip protocol hnone
  have hin := arp_in_pending cfg now (arp_out cfg s buf ip protocol) pkt
    (by rw [hout]; exact hne) hvalid (by rw [hout]) (by rw [hout, hip]; exact hnone)
  rw [hin]
  rw [hout]
  exact ⟨rfl, rfl, rfl, rfl⟩

/-- C7 (failing input): `txbuf` holds the datagram `1, 2, 3` and the table has no entry
for 10.0.0.9; `arp_out(&txbuf, 10.0.0.9, NET_PROTOCOL_IP)` sends the request, and when
the reply of 10.0.0.9 comes in, `arp_in` sends a second frame, to the link address of
10.0.0.9 with type `0x0800`, that carries the 42 bytes of the frame of the ARP request,
not the datagram. -/
theorem arp_round_trip_txbuf_sends_request :
    state_txbuf.txbuf = [1, 2, 3] ∧ arp_lookup state_txbuf.arp_table ip_b = none ∧
      arp_in_rejects reply_ex = false ∧ swap16 reply_ex.opcode = ARP_REPLY ∧
      (arp_in cfg_ex 100 (arp_out cfg_ex state_txbuf .txbuf ip_b NET_PROTOCOL_IP)
          reply_ex).sent.length = 2 ∧
      (arp_in cfg_ex 100 (arp_out cfg_ex state_txbuf .txbuf ip_b NET_PROTOCOL_IP)
          reply_ex).sent.getLast? =
        some ⟨mac_b, ethernet_src, 0x08, 0x00, .raw request_frame_bytes⟩ := by
  decide

/-- C9: a packet whose hardware type, protocol type, hardware length or protocol
length is not the expected constant, or whose opcode is neither Request nor Reply, is
dropped by `arp_in`: the table, the pending slot and the list of sent frames stay
exactly as they were. -/
theorem arp_in_drops_invalid (cfg : config) (now : Int) (s : net_state) (pkt : arp_pkt_t)
    (hbad : pkt.hw_type ≠ swap16 ARP_HW_ETHER ∨ pkt.pro_type ≠ swap16 NET_PROTOCOL_IP ∨
      pkt.hw_len ≠ NET_MAC_LEN ∨ pkt.pro_len ≠ NET_IP_LEN ∨
      (swap16 pkt.opcode ≠ ARP_REQUEST ∧ swap16 pkt.opcode ≠ ARP_REPLY)) :
    arp_in cfg now s pkt = s := by
  have hrej : arp_in_rejects pkt = true := by
    simp only [arp_in_rejects, Bool.or_eq_true, Bool.and_eq_true, bne_iff_ne]
    tauto
  simp only [arp_in, hrej, if_true]

/-- Witness for C9: a packet with hardware length 8 while a datagram is pending. -/
theorem arp_in_drops_invalid_witness :
    arp_in cfg_ex 100 state_pending bad_pkt_ex = state_pending :=
  arp_in_drops_invalid cfg_ex 100 state_pending bad_pkt_ex
    (Or.inr (Or.inr (Or.inl (by decide))))

/-- C10: with no datagram pending, a Request that passes the check of `arp_in` and
whose target address equals `net_if_ip` makes `arp_in` send exactly one frame: to the
link address of the requester, with type `0x0806`, an ARP packet with opcode Reply, the
configured address and link address as sender and the sender fields of the request as
target; a Request whose target address differs from `net_if_ip` in some byte makes it
send nothing. -/
theorem arp_in_request (cfg : config) (now : Int) (s : net_state) (pkt : arp_pkt_t)
    (hpend : s.arp_buf.valid = false) (hvalid : arp_in_rejects pkt = false)
    (hreq : swap16 pkt.opcode = ARP_REQUEST) :
    (pkt.target_ip = cfg.net_if_ip →
        (arp_in cfg now s pkt).sent = s.sent ++
          [⟨pkt.sender_mac, ethernet_src, 0x08, 0x06,
            .arp ⟨swap16 ARP_HW_ETHER, swap16 NET_PROTOCOL_IP, 6, 4, swap16 ARP_REPLY,
              cfg.DRIVER_IF_MAC, cfg.DRIVER_IF_IP, pkt.sender_mac, pkt.sender_ip⟩⟩]) ∧
      ((∃ i : Fin 4, pkt.target_ip i ≠ cfg.net_if_ip i) →
        (arp_in cfg now s pkt).sent = s.sent) := by
  constructor
  · intro hself
    have hno : ¬ ∃ i : Fin 4, pkt.target_ip i ≠ cfg.net_if_ip i := by
      rw [hself]
      simp
    simp only [arp_in, hvalid, hpend, hreq, hno, ethernet_out, arp_init_pkt, NET_PROTOCOL_ARP,
      NET_MAC_LEN, NET_IP_LEN]
    rfl
  · intro hother
    simp only [arp_in, hvalid, hpend, hreq, hother]
    rfl

/-- Witness for C10: the request of 10.0.0.9 for 10.0.0.1, the address of this node. -/
theorem arp_in_request_witness :
    (arp_in cfg_ex 100 state_ex request_ex).sent =
      [⟨mac_b, ethernet_src, 0x08, 0x06,
        .arp ⟨swap16 ARP_HW_ETHER, swap16 NET_PROTOCOL_IP, 6, 4, swap16 ARP_REPLY,
          cfg_ex.DRIVER_IF_MAC, cfg_ex.DRIVER_IF_IP, mac_b, ip_b⟩⟩] :=
  (arp_in_request cfg_ex 100 state_ex request_ex (by decide) (by decide) (by decide)).1
    (by decide)

/-- C17: when `arp_lookup(ip)` finds the link address `m`, `arp_out(buf, ip, protocol)`
sends exactly one frame, the bytes that `buf` points to, to `m` with the type bytes of
`protocol` (so no ARP request), and leaves the table and the pending slot as they
were.  This holds for a buffer of the caller and for the global `txbuf` alike. -/
theorem arp_out_resolved (cfg : config) (s : net_state) (buf : buf_ptr) (ip : ip_addr)
    (protocol : Nat) (m : mac_addr) (hfound : arp_lookup s.arp_table ip = some m) :
    (arp_out cfg s buf ip protocol).sent = s.sent ++
        [⟨m, ethernet_src, (protocol &&& 0xFF00) >>> 8, protocol &&& 0x00FF,
          .raw (deref s buf)⟩] ∧
      (arp_out cfg s buf ip protocol).arp_table = s.arp_table ∧
      (arp_out cfg s buf ip protocol).arp_buf = s.arp_buf := by
  cases buf <;> (refine ⟨?_, ?_, ?_⟩ <;> simp [arp_out, hfound, ethernet_out, deref])

/-- Witness for C17: a send to 10.0.0.5, which `table_a` resolves, while a datagram
for 10.0.0.9 is pending. -/
theorem arp_out_resolved_witness :
    (arp_out cfg_ex state_pending (.other [1, 2, 3]) ip_a NET_PROTOCOL_IP).sent =
        [⟨mac_a, ethernet_src, 0x08, 0x00, .raw [1, 2, 3]⟩] ∧
      (arp_out cfg_ex state_pending (.other [1, 2, 3]) ip_a NET_PROTOCOL_IP).arp_table =
        table_a ∧
      (arp_out cfg_ex state_pending (.other [1, 2, 3]) ip_a NET_PROTOCOL_IP).arp_buf =
        state_pending.arp_buf :=
  arp_out_resolved cfg_ex state_pending (.other [1, 2, 3]) ip_a NET_PROTOCOL_IP mac_a
    (by decide)

/-- C18: with no datagram pending, a Reply that passes the check of `arp_in` makes
`arp_in` send nothing and leave the pending slot as it was, invalid; the table becomes
what `arp_update(sender_ip, sender_mac, ARP_VALID)` makes of it. -/
theorem arp_in_unsolicited_reply (cfg : config) (now : Int) (s : net_state)
    (pkt : arp_pkt_t) (hpend : s.arp_buf.valid = false)
    (hvalid : arp_in_rejects pkt = false) (hreply : swap16 pkt.opcode = ARP_REPLY) :
    (arp_in cfg now s pkt).sent = s.sent ∧
      (arp_in cfg now s pkt).arp_buf = s.arp_buf ∧
      (arp_in cfg now s pkt).arp_buf.valid = false ∧
      (arp_in cfg now s pkt).arp_table =
        arp_update cfg now s.arp_table pkt.sender_ip pkt.sender_mac .ARP_VALID := by
  have hop : swap16 pkt.opcode ≠ ARP_REQUEST := by
    rw [hreply]; decide
  have hin : arp_in cfg now s pkt =
      { s with arp_table :=
          arp_update cfg now s.arp_table pkt.sender_ip pkt.sender_mac .ARP_VALID } := by
    simp [arp_in, hvalid, hpend, hop]
  rw [hin]
  exact ⟨rfl, rfl, hpend, rfl⟩

/-- Witness for C18: the reply of 10.0.0.9 while nothing is pending. -/
theorem arp_in_unsolicited_reply_witness :
    (arp_in cfg_ex 100 state_ex reply_ex).sent = [] ∧
      (arp_in cfg_ex 100 state_ex reply_ex).arp_buf = state_ex.arp_buf ∧
      (arp_in cfg_ex 100 state_ex reply_ex).arp_buf.valid = false ∧
      (arp_in cfg_ex 100 state_ex reply_ex).arp_table =
        arp_update cfg_ex 100 table_a ip_b mac_b .ARP_VALID :=
  arp_in_unsolicited_reply cfg_ex 100 state_ex reply_ex (by decide) (by decide) (by decide)

theorem arp_lookup_set_some (t : List arp_entry_t) (ip : ip_addr) (mac : mac_addr) (tm : Int)
    (i : Nat) (hi : i < t.length) :
    ∃ m, arp_lookup (t.set i ⟨.ARP_VALID, tm, ip, mac⟩) ip = some m := by
  cases hl : arp_lookup (t.set i ⟨.ARP_VALID, tm, ip, mac⟩) ip with
  | some m => exact ⟨m, rfl⟩
  | none =>
    rw [arp_lookup_none] at hl
    have hmem : (⟨.ARP_VALID, tm, ip, mac⟩ : arp_entry_t) ∈ t.set i ⟨.ARP_VALID, tm, ip, mac⟩ :=
      List.mem_iff_get.2 ⟨⟨i, by simpa using hi⟩, by simp⟩
    exact absurd ⟨rfl, rfl⟩ (hl _ hmem)

/-- After `arp_update(ip, mac, ARP_VALID)` on a table of at least one entry the lookup
of `ip` finds a link address. -/
theorem arp_update_lookup_some (cfg : config) (now : Int) (t : List arp_entry_t)
    (ip : ip_addr) (mac : mac_addr) (hne : t ≠ []) :
    ∃ m, arp_lookup (arp_update cfg now t ip mac .ARP_VALID) ip = some m := by
  obtain ⟨i, hi, hset⟩ := arp_update_eq_set cfg now t ip mac .ARP_VALID hne
  rw [hset]
  exact arp_lookup_set_some _ ip mac _ i hi

/-- C19: when the pending slot is valid and the table has at least one entry, every
packet that passes the check of `arp_in` (Request or Reply, from any sender, for any
target) clears the pending slot and makes `arp_in` send exactly one frame, the pending
bytes under the pending protocol, to the link address `m` that `arp_lookup` finds for
the sender after `arp_update`; that lookup always finds one, and no ARP reply is
sent. -/
theorem arp_in_pending_always_flushes (cfg : config) (now : Int) (s : net_state)
    (pkt : arp_pkt_t) (hne : s.arp_table ≠ []) (hvalid : arp_in_rejects pkt = false)
    (hpend : s.arp_buf.valid = true) :
    ∃ m, arp_lookup
          (arp_update cfg now s.arp_table pkt.sender_ip pkt.sender_mac .ARP_VALID)
          pkt.sender_ip = some m ∧
      (arp_in cfg now s pkt).arp_buf.valid = false ∧
      (arp_in cfg now s pkt).sent = s.sent ++
        [⟨m, ethernet_src, (s.arp_buf.protocol &&& 0xFF00) >>> 8,
          s.arp_buf.protocol &&& 0x00FF, .raw s.arp_buf.buf⟩] := by
  obtain ⟨m, hm⟩ :=
    arp_update_lookup_some cfg now s.arp_table pkt.sender_ip pkt.sender_mac hne
  refine ⟨m, hm, ?_, ?_⟩ <;> simp [arp_in, hvalid, hpend, hm, ethernet_out]

/-- Witness for C19: a datagram for 10.0.0.9 is pending and a request for this node
arrives. -/
theorem arp_in_pending_always_flushes_witness :
    ∃ m, arp_lookup
          (arp_update cfg_ex 100 state_pending.arp_table request_ex.sender_ip
            request_ex.sender_mac .ARP_VALID)
          request_ex.sender_ip = some m ∧
      (arp_in cfg_ex 100 state_pending request_ex).arp_buf.valid = false ∧
      (arp_in cfg_ex 100 state_pending request_ex).sent = state_pending.sent ++
        [⟨m, ethernet_src, (state_pending.arp_buf.protocol &&& 0xFF00) >>> 8,
          state_pending.arp_buf.protocol &&& 0x00FF, .raw state_pending.arp_buf.buf⟩] :=
  arp_in_pending_always_flushes cfg_ex 100 state_pending request_ex (by decide) (by decide)
    (by decide)

/-! ## Theorems on ip.c: identifier and fragmentation boundary -/

theorem ip_out_new_id (id : Int) (buf : buf_t) (ip : ip_addr) (protocol : Nat) :
    (ip_out id buf ip protocol).2 = id + 1 := by
  unfold ip_out
  by_cases h : buf.length > max_length
  · rw [if_pos h]
  · rw [if_neg h]

theorem ip_out_call_ids (id : Int) (buf : buf_t) (ip : ip_addr) (protocol : Nat) :
    ∀ c ∈ (ip_out id buf ip protocol).1, c.id = id := by
  unfold ip_out
  by_cases h : buf.length > max_length
  · rw [if_pos h]
    simp only
    rw [ip_out_loop_spec ip protocol id _ buf _ 0 (Nat.le_refl _)]
    intro c hc
    rcases List.mem_append.1 hc with hc | hc
    · rw [List.mem_map] at hc
      obtain ⟨j, _, hj⟩ := hc
      rw [← hj]
      rfl
    · by_cases hr : buf.length % 65536 % max_length > 0
      · rw [if_pos hr, List.mem_singleton] at hc
        rw [hc]
      · rw [if_neg hr] at hc
        exact absurd hc (List.not_mem_nil _)
  · rw [if_neg h]
    intro c hc
    rw [List.mem_singleton] at hc
    rw [hc]

/-- C14: every call of `ip_out` adds exactly 1 to the global `id`, fragmented or not;
every call of `ip_fragment_out` it makes carries the value that `id` had before the
call; so the fragments of the next `ip_out` call carry that value plus 1. -/
theorem ip_out_identifier (id : Int) (buf buf2 : buf_t) (ip ip2 : ip_addr)
    (protocol protocol2 : Nat) :
    (ip_out id buf ip protocol).2 = id + 1 ∧
      (∀ c ∈ (ip_out id buf ip protocol).1, c.id = id) ∧
      (∀ c ∈ (ip_out (ip_out id buf ip protocol).2 buf2 ip2 protocol2).1, c.id = id + 1) := by
  refine ⟨ip_out_new_id id buf ip protocol, ip_out_call_ids id buf ip protocol, ?_⟩
  rw [ip_out_new_id]
  exact ip_out_call_ids (id + 1) buf2 ip2 protocol2

/-- C15: a payload of at most `max_length` bytes gives exactly one call of
`ip_fragment_out`, with the whole payload, offset 0 and flag 0; a payload of
`max_length + 1` bytes gives exactly two calls, the first with the first `max_length`
bytes, offset 0 and flag 1, the second with the one byte that is left, offset
`max_length >> 3` and flag 0. -/
theorem ip_out_boundary (id : Int) (buf : buf_t) (ip : ip_addr) (protocol : Nat) :
    (buf.length ≤ max_length →
        (ip_out id buf ip protocol).1 = [⟨buf, ip, protocol, id, 0, 0⟩]) ∧
      (buf.length = max_length + 1 →
        (ip_out id buf ip protocol).1 =
            [⟨buf.take max_length, ip, protocol, id, 0, 1⟩,
              ⟨buf.drop max_length, ip, protocol, id, max_length >>> 3, 0⟩] ∧
          (buf.drop max_length).length = 1) := by
  constructor
  · intro hle
    unfold ip_out
    rw [if_neg (Nat.not_lt.2 hle)]
  · intro hlen
    have hgt : max_length < buf.length := by omega
    have hlt : buf.length < 65536 := by rw [hlen, max_length_eq]; omega
    have hdiv : buf.length / max_length = 1 := by rw [hlen, max_length_eq]
    have hmod : buf.length % max_length = 1 := by rw [hlen, max_length_eq]
    have hdrop : (buf.drop max_length).length = 1 := by
      rw [List.length_drop, hlen]; omega
    refine ⟨?_, hdrop⟩
    rw [ip_out_calls id buf ip protocol hgt hlt]
    have hlast : last_call ip protocol id buf =
        ⟨buf.drop max_length, ip, protocol, id, max_length >>> 3, 0⟩ := by
      unfold last_call
      rw [hdiv, hmod, Nat.one_mul, List.take_of_length_le (Nat.le_of_eq hdrop)]
      rfl
    have hfirst : loop_call ip protocol id buf 0 0 =
        ⟨buf.take max_length, ip, protocol, id, 0, 1⟩ := by
      unfold loop_call
      rw [Nat.zero_mul, List.drop_zero]
      rfl
    rw [hdiv, hmod, if_pos (by omega), hlast]
    simp only [List.range_succ, List.range_zero, List.nil_append, List.map_cons, List.map_nil,
      List.singleton_append, hfirst]

/-! ## Theorems on ip.c: input and the header of a fragment -/

/-- C11 (failing input): the header `datagram_len19` declares the total length 19 in
network byte order, less than 20; `ip_in` reads the field without `swap16` as 4864,
does not drop the datagram and calls `icmp_in`. -/
theorem ip_in_accepts_short_total_length :
    ip_version datagram_len19 = 4 ∧ ip_hdr_len datagram_len19 * 4 = 20 ∧
      net16 datagram_len19 2 = 19 ∧ ip_total_len datagram_len19 = 4864 ∧
      ip_in cfg_ex datagram_len19 = .icmp_in [] (ip_src_ip datagram_len19) := by
  decide

/-- C13: a datagram that passes the header check, the checksum
comparison and the destination comparison of `ip_in` makes `ip_in` do exactly one
call: `icmp_unreachable` with the datagram as it came, its source address and the code
"protocol unreachable" when the protocol field is neither ICMP nor UDP; `icmp_in` when
it is ICMP, `udp_in` when it is UDP, each with the datagram without its first 20 bytes
and the source address. -/
theorem ip_in_dispatch (cfg : config) (buf : buf_t)
    (hhdr : ip_in_header_bad buf = false)
    (hck : ip_in_checksum buf = ip_hdr_checksum buf)
    (hdst : ∀ i : Fin 4, ip_dest_ip buf i = cfg.net_if_ip i) :
    (ip_protocol buf ≠ NET_PROTOCOL_ICMP → ip_protocol buf ≠ NET_PROTOCOL_UDP →
        ip_in cfg buf =
          .icmp_unreachable buf (ip_src_ip buf) ICMP_CODE_PROTOCOL_UNREACH) ∧
      (ip_protocol buf = NET_PROTOCOL_ICMP →
        ip_in cfg buf = .icmp_in (buf.drop 20) (ip_src_ip buf)) ∧
      (ip_protocol buf = NET_PROTOCOL_UDP →
        ip_in cfg buf = .udp_in (buf.drop 20) (ip_src_ip buf)) := by
  have hno : ¬ ∃ i : Fin 4, ip_dest_ip buf i ≠ cfg.net_if_ip i := by
    intro ⟨i, hi⟩
    exact hi (hdst i)
  refine ⟨?_, ?_, ?_⟩
  · intro h1 h2
    simp [ip_in, hhdr, hck, hno, h1, h2]
  · intro h1
    simp [ip_in, hhdr, hck, hno, h1, IP_HDR_SIZE]
  · intro h2
    have hne : NET_PROTOCOL_UDP ≠ NET_PROTOCOL_ICMP := by decide
    simp [ip_in, hhdr, hck, hno, h2, hne, IP_HDR_SIZE]

/-- Witness for C13: a datagram with protocol 6 goes to `icmp_unreachable`. -/
theorem ip_in_dispatch_witness :
    ip_in cfg_ex datagram_tcp =
      .icmp_unreachable datagram_tcp (ip_src_ip datagram_tcp) ICMP_CODE_PROTOCOL_UNREACH :=
  (ip_in_dispatch cfg_ex datagram_tcp (by decide) (by decide) (by decide)).1
    (by decide) (by decide)

set_option maxRecDepth 10000 in
/-- C20 (failing input): the datagram that `ip_fragment_out` builds for a payload of
236 bytes and this node's own address has the total length 256, stored as the bytes
`01 00`; `ip_in` reads the field without `swap16` as 1, less than 20, and drops the
datagram. -/
theorem ip_in_drops_own_fragment :
    net16 (ip_fragment_out_packet cfg_ex ipc_ex (List.replicate 236 0) cfg_ex.net_if_ip 17 7 0 0)
        2 = 256 ∧
      ip_total_len
        (ip_fragment_out_packet cfg_ex ipc_ex (List.replicate 236 0) cfg_ex.net_if_ip 17 7 0 0)
        = 1 ∧
      ip_in cfg_ex
        (ip_fragment_out_packet cfg_ex ipc_ex (List.replicate 236 0) cfg_ex.net_if_ip 17 7 0 0)
        = .drop := by
  decide

/-! ## Theorems on ip.c: the header checksum -/

theorem getD_set (l : List Nat) (j i v d : Nat) (hj : j < l.length) :
    (l.set j v).getD i d = if i = j then v else l.getD i d := by
  rw [List.getD_eq_getElem?_getD, List.getD_eq_getElem?_getD, List.getElem?_set]
  by_cases h : j = i
  · subst h
    simp [hj]
  · have h2 : ¬ i = j := fun e => h e.symm
    simp [h, h2]

theorem hdr_byte_set (buf : buf_t) (j i v : Nat) (hj : j < buf.length) :
    hdr_byte (buf.set j v) i = if i = j then v else hdr_byte buf i :=
  getD_set buf j i v 0 hj

theorem byte_weight_add_two (j : Nat) : byte_weight (j + 2) = byte_weight j := by
  unfold byte_weight
  have : (j + 2) % 2 = j % 2 := by omega
  rw [this]

/-- Writing `v` over the byte at offset `j` changes the sum of the 16-bit words by the
weight of that byte times the change of the byte. -/
theorem sum16_set : ∀ (l : List Nat) (j v : Nat), j < l.length →
    sum16 (l.set j v) + byte_weight j * l.getD j 0 = sum16 l + byte_weight j * v
  | [], j, v, h => by simp at h
  | [a], j, v, h => by
    have hj : j = 0 := by simpa using h
    subst hj
    simp [sum16, byte_weight]
    omega
  | a :: b :: rest, 0, v, _ => by
    simp [sum16, byte_weight]
    omega
  | a :: b :: rest, 1, v, _ => by
    simp [sum16, byte_weight]
    omega
  | a :: b :: rest, j + 2, v, h => by
    have ih := sum16_set rest j v (by simpa using h)
    rw [byte_weight_add_two]
    simp only [List.set_cons_succ, sum16, List.getD_cons_succ]
    omega

theorem fold16_eq (fuel : Nat) : ∀ sum : Nat, sum ≤ fuel → fold16 fuel sum = fold16_value sum := by
  induction fuel with
  | zero =>
    intro sum h
    have h0 : sum = 0 := by omega
    subst h0
    rfl
  | succ n ih =>
    intro sum h
    unfold fold16
    have hshift : sum >>> 16 = sum / 65536 := by
      rw [Nat.shiftRight_eq_div_pow]
    have hand : sum &&& 0xFFFF = sum % 65536 :=
      Nat.and_pow_two_sub_one_eq_mod sum 16
    rw [hshift, hand]
    by_cases hbig : sum / 65536 ≠ 0
    · rw [if_pos hbig, ih _ (by omega)]
      unfold fold16_value
      have h1 : ¬ sum / 65536 + sum % 65536 = 0 := by omega
      have h2 : ¬ sum = 0 := by omega
      rw [if_neg h1, if_neg h2]
      omega
    · rw [if_neg hbig]
      unfold fold16_value
      by_cases h0 : sum = 0
      · rw [if_pos h0, h0]
      · rw [if_neg h0]
        omega

theorem checksum16_eq (buf : List Nat) (len : Nat) :
    checksum16 buf len = 65535 - fold16_value (sum16 (buf.take len)) := by
  unfold checksum16
  simp only [fold16_eq _ _ (Nat.le_refl _)]

theorem fold16_value_le (sum : Nat) : fold16_value sum ≤ 65535 := by
  unfold fold16_value
  by_cases h : sum = 0
  · rw [if_pos h]; omega
  · rw [if_neg h]; omega

/-- Two sums that differ by more than 0 and less than 65535 fold to different values. -/
theorem fold16_value_ne (s d : Nat) (hpos : 0 < d) (hlt : d < 65535) :
    fold16_value s ≠ fold16_value (s + d) := by
  unfold fold16_value
  have h1 : ¬ s + d = 0 := by omega
  rw [if_neg h1]
  by_cases h0 : s = 0
  · rw [if_pos h0]; omega
  · rw [if_neg h0]; omega

theorem ip_in_accept_checksum (cfg : config) (buf : buf_t) (hacc : ip_in cfg buf ≠ .drop) :
    ip_in_checksum buf = ip_hdr_checksum buf := by
  by_contra hne
  apply hacc
  unfold ip_in
  by_cases hbad : ip_in_header_bad buf = true
  · rw [if_pos hbad]
  · rw [if_neg hbad]
    simp only [ne_eq, hne, not_false_eq_true, if_true]

theorem ip_in_drop_of_checksum (cfg : config) (buf : buf_t)
    (hne : ip_in_checksum buf ≠ ip_hdr_checksum buf) : ip_in cfg buf = .drop := by
  unfold ip_in
  by_cases hbad : ip_in_header_bad buf = true
  · rw [if_pos hbad]
  · rw [if_neg hbad]
    simp only [ne_eq, hne, not_false_eq_true, if_true]

theorem getD_take_of_lt (l : List Nat) (n j : Nat) (h : j < n) :
    (l.take n).getD j 0 = l.getD j 0 := by
  rw [List.getD_eq_getElem?_getD, List.getD_eq_getElem?_getD, List.getElem?_take, if_pos h]

/-- The sum that `ip_in` takes the checksum of: the 16-bit words of the 20 header bytes
with the checksum field set to zero. -/
theorem ip_in_checksum_eq (buf : buf_t) :
    ip_in_checksum buf =
      65535 - fold16_value (sum16 (((buf.set 10 0).set 11 0).take 20)) := by
  unfold ip_in_checksum
  rw [checksum16_eq]
  rfl

/-- A header whose checksum comparison succeeds fails it after any byte of the header
is replaced by a different byte. -/
theorem ip_in_checksum_changed (buf : buf_t) (j v : Nat) (hlen : 20 ≤ buf.length)
    (hj : j < 20) (hbytes : ∀ i, i < 20 → hdr_byte buf i < 256) (hv : v < 256)
    (hne : v ≠ hdr_byte buf j) (hck : ip_in_checksum buf = ip_hdr_checksum buf) :
    ip_in_checksum (buf.set j v) ≠ ip_hdr_checksum (buf.set j v) := by
  have hjl : j < buf.length := by omega
  have hstored : ip_hdr_checksum (buf.set j v) =
      (if 10 = j then v else hdr_byte buf 10) + 256 * (if 11 = j then v else hdr_byte buf 11) := by
    simp only [ip_hdr_checksum, hdr_field16, hdr_byte_set buf j _ v hjl]
  have hstored0 : ip_hdr_checksum buf = hdr_byte buf 10 + 256 * hdr_byte buf 11 := rfl
  by_cases h10 : j = 10
  · subst h10
    have hz : (((buf.set 10 v).set 10 0).set 11 0) = ((buf.set 10 0).set 11 0) := by
      rw [List.set_set]
    rw [ip_in_checksum, hz, ← ip_in_checksum, hck, hstored, hstored0]
    simp only [if_true]
    have : ¬ (11 = 10) := by omega
    rw [if_neg this]
    omega
  · by_cases h11 : j = 11
    · subst h11
      have hz : (((buf.set 11 v).set 10 0).set 11 0) = ((buf.set 10 0).set 11 0) := by
        rw [List.set_comm v 0 buf (by omega), List.set_set]
      rw [ip_in_checksum, hz, ← ip_in_checksum, hck, hstored, hstored0]
      simp only [if_true]
      have : ¬ (10 = 11) := by omega
      rw [if_neg this]
      omega
    · have hz : (((buf.set j v).set 10 0).set 11 0) = ((buf.set 10 0).set 11 0).set j v := by
        rw [List.set_comm v 0 buf h10, List.set_comm v 0 _ h11]
      have hn10 : ¬ (10 = j) := fun e => h10 e.symm
      have hn11 : ¬ (11 = j) := fun e => h11 e.symm
      rw [hstored, if_neg hn10, if_neg hn11, ← hstored0, ← hck]
      rw [ip_in_checksum_eq, ip_in_checksum_eq, hz, List.set_take]
      have hzl : j < (((buf.set 10 0).set 11 0).take 20).length := by
        rw [List.length_take, List.length_set, List.length_set]
        omega
      have hsum := sum16_set (((buf.set 10 0).set 11 0).take 20) j v hzl
      have hold : (((buf.set 10 0).set 11 0).take 20).getD j 0 = hdr_byte buf j := by
        rw [getD_take_of_lt _ 20 j hj, getD_set _ 11 j 0 0 (by rw [List.length_set]; omega),
          if_neg h11, getD_set _ 10 j 0 0 (by omega), if_neg h10]
        rfl
      rw [hold] at hsum
      have hx := hbytes j hj
      have hle1 := fold16_value_le (sum16 ((((buf.set 10 0).set 11 0).take 20).set j v))
      have hle2 := fold16_value_le (sum16 (((buf.set 10 0).set 11 0).take 20))
      intro heq
      have hfv : fold16_value (sum16 ((((buf.set 10 0).set 11 0).take 20).set j v)) =
          fold16_value (sum16 (((buf.set 10 0).set 11 0).take 20)) := by omega
      have hw : byte_weight j = 1 ∨ byte_weight j = 256 := by
        unfold byte_weight
        by_cases hp : j % 2 = 0
        · left; rw [if_pos hp]
        · right; rw [if_neg hp]
      rcases Nat.lt_or_gt_of_ne hne with hlt | hgt
      · -- the byte gets smaller: the old sum is the new sum plus the difference
        have hd : sum16 (((buf.set 10 0).set 11 0).take 20) =
            sum16 ((((buf.set 10 0).set 11 0).take 20).set j v) +
              byte_weight j * (hdr_byte buf j - v) := by
          rcases hw with hw | hw <;> rw [hw] at hsum ⊢ <;> omega
        have hdpos : 0 < byte_weight j * (hdr_byte buf j - v) := by
          rcases hw with hw | hw <;> rw [hw] <;> omega
        have hdlt : byte_weight j * (hdr_byte buf j - v) < 65535 := by
          rcases hw with hw | hw <;> rw [hw] <;> omega
        have := fold16_value_ne (sum16 ((((buf.set 10 0).set 11 0).take 20).set j v)) _ hdpos hdlt
        rw [← hd] at this
        exact this hfv
      · have hd : sum16 ((((buf.set 10 0).set 11 0).take 20).set j v) =
            sum16 (((buf.set 10 0).set 11 0).take 20) +
              byte_weight j * (v - hdr_byte buf j) := by
          rcases hw with hw | hw <;> rw [hw] at hsum ⊢ <;> omega
        have hdpos : 0 < byte_weight j * (v - hdr_byte buf j) := by
          rcases hw with hw | hw <;> rw [hw] <;> omega
        have hdlt : byte_weight j * (v - hdr_byte buf j) < 65535 := by
          rcases hw with hw | hw <;> rw [hw] <;> omega
        have := fold16_value_ne (sum16 (((buf.set 10 0).set 11 0).take 20)) _ hdpos hdlt
        rw [← hd] at this
        exact this hfv.symm

theorem xor_bit_ne (x k : Nat) : x ^^^ (1 <<< k) ≠ x := by
  intro h
  have h2 : x ^^^ (x ^^^ (1 <<< k)) = x ^^^ x := by rw [h]
  rw [Nat.xor_cancel_left, Nat.xor_self, Nat.shiftLeft_eq, Nat.one_mul] at h2
  exact absurd h2 (Nat.pos_iff_ne_zero.1 (Nat.two_pow_pos k))

theorem xor_bit_lt (x k : Nat) (hx : x < 256) (hk : k < 8) : x ^^^ (1 <<< k) < 256 := by
  have h1 : (1 : Nat) <<< k < 2 ^ 8 := by
    rw [Nat.shiftLeft_eq, Nat.one_mul]
    exact Nat.pow_lt_pow_right (by omega) hk
  have h2 : x < 2 ^ 8 := by omega
  have := Nat.xor_lt_two_pow h2 h1
  omega

/-- C12: a datagram that `ip_in` does not drop (it passes the header check, the
checksum comparison and the destination comparison) is dropped by `ip_in`, with no
call of a handler, after any single bit of any of its 20 header bytes is flipped, the
bytes of the checksum field included.  The header bytes are bytes (less than 256) and
`checksum16` is the standard 16-bit one's-complement checksum. -/
theorem ip_in_drops_bit_flip (cfg : config) (buf : buf_t) (j k : Nat)
    (hlen : 20 ≤ buf.length) (hbytes : ∀ i, i < 20 → hdr_byte buf i < 256)
    (hacc : ip_in cfg buf ≠ .drop) (hj : j < 20) (hk : k < 8) :
    ip_in cfg (flip_bit buf j k) = .drop := by
  apply ip_in_drop_of_checksum
  unfold flip_bit
  exact ip_in_checksum_changed buf j _ hlen hj hbytes
    (xor_bit_lt _ k (hbytes j hj) hk) (xor_bit_ne _ k) (ip_in_accept_checksum cfg buf hacc)

/-- Witness for C12: bit 0 of the time-to-live byte of `datagram_udp` is flipped. -/
theorem ip_in_drops_bit_flip_witness :
    ip_in cfg_ex datagram_udp ≠ .drop ∧ ip_in cfg_ex (flip_bit datagram_udp 8 0) = .drop :=
  ⟨by decide,
    ip_in_drops_bit_flip cfg_ex datagram_udp 8 0 (by decide) (by decide) (by decide)
      (by decide) (by decide)⟩

/-- Witness for C15: a payload of 3 bytes and a payload of 1481 bytes. -/
theorem ip_out_boundary_witness :
    (ip_out 7 [1, 2, 3] ip_b 17).1 = [⟨[1, 2, 3], ip_b, 17, 7, 0, 0⟩] ∧
      (ip_out 7 (List.replicate 1481 9) ip_b 17).1 =
        [⟨(List.replicate 1481 9).take max_length, ip_b, 17, 7, 0, 1⟩,
          ⟨(List.replicate 1481 9).drop max_length, ip_b, 17, 7, max_length >>> 3, 0⟩] :=
  ⟨(ip_out_boundary 7 [1, 2, 3] ip_b 17).1 (by decide),
    ((ip_out_boundary 7 (List.replicate 1481 9) ip_b 17).2
      (by rw [List.length_replicate, max_length_eq])).1⟩

/-- The header check of `ip_in` as the code makes it: a datagram whose version is not
4, whose header length times 4 is not 20, or whose total-length field as the host reads
it is less than 20, is dropped. -/
theorem ip_in_drops_bad_header (cfg : config) (buf : buf_t)
    (hbad : ip_version buf ≠ 4 ∨ ip_hdr_len buf * 4 ≠ 20 ∨ ip_total_len buf < 20) :
    ip_in cfg buf = .drop := by
  have h : ip_in_header_bad buf = true := by
    simp only [ip_in_header_bad, IP_VERSION_4, IP_HDR_LEN_PER_BYTE, IP_HDR_SIZE,
      Bool.or_eq_true, bne_iff_ne, decide_eq_true_eq]
    tauto
  simp only [ip_in, h, if_true]

theorem swap16_lt (x : Nat) : swap16 x < 65536 := by
  unfold swap16
  have h1 : x &&& 0xFF ≤ 255 := Nat.and_le_right
  have h2 : (x >>> 8) &&& 0xFF ≤ 255 := Nat.and_le_right
  have h3 : (x &&& 0xFF) <<< 8 < 2 ^ 16 := by
    rw [Nat.shiftLeft_eq]; omega
  have h4 : (x >>> 8) &&& 0xFF < 2 ^ 16 := by omega
  exact Nat.or_lt_two_pow h3 h4

theorem split16 (t : Nat) : (t &&& 0xFF) + 256 * (t >>> 8) = t := by
  have h1 : t &&& 0xFF = t % 256 := Nat.and_pow_two_sub_one_eq_mod t 8
  rw [h1, Nat.shiftRight_eq_div_pow]
  omega

/-- The packet of `ip_fragment_out` written out byte by byte. -/
theorem ip_header_bytes_eq (cfg : config) (ipc : ip_config) (len : Nat) (ip : ip_addr)
    (protocol : Nat) (id : Int) (offset : Nat) (mf : Nat) (c : Nat) :
    ip_header_bytes cfg ipc len ip protocol id offset mf c =
      [0x45, 0, swap16 len &&& 0xFF, swap16 len >>> 8,
        swap16 (id % 65536).toNat &&& 0xFF, swap16 (id % 65536).toNat >>> 8,
        ((if mf ≠ 0 then ipc.IP_MORE_FRAGMENT ||| swap16 offset else 0 ||| swap16 offset)
          % 65536) &&& 0xFF,
        ((if mf ≠ 0 then ipc.IP_MORE_FRAGMENT ||| swap16 offset else 0 ||| swap16 offset)
          % 65536) >>> 8,
        ipc.IP_DEFALUT_TTL % 256, protocol % 256, c &&& 0xFF, c >>> 8,
        cfg.net_if_ip 0, cfg.net_if_ip 1, cfg.net_if_ip 2, cfg.net_if_ip 3,
        ip 0, ip 1, ip 2, ip 3] := by
  simp [ip_header_bytes, List.ofFn_succ, IP_VERSION_4, IP_HDR_SIZE, IP_HDR_LEN_PER_BYTE]
  exact ⟨rfl, rfl⟩

/-- The datagram that `ip_fragment_out` builds for this node's own address is dropped by
`ip_in` exactly when `swap16` of its total length is less than 20: that is the total
length field as `ip_in` reads it, and all other checks of `ip_in` pass. -/
theorem ip_in_own_fragment (cfg : config) (ipc : ip_config) (buf : buf_t) (protocol : Nat)
    (id : Int) (offset : Nat) (mf : Nat) :
    ip_in cfg (ip_fragment_out_packet cfg ipc buf cfg.net_if_ip protocol id offset mf) = .drop ↔
      swap16 (buf.length + 20) < 20 := by
  have hpkt : ∀ c, ip_header_bytes cfg ipc (buf.length + 20) cfg.net_if_ip protocol id offset mf c
      ++ buf = _ := fun c => by rw [ip_header_bytes_eq]
  have htot : ip_total_len
      (ip_fragment_out_packet cfg ipc buf cfg.net_if_ip protocol id offset mf) =
      swap16 (buf.length + 20) := by
    simp only [ip_fragment_out_packet, IP_HDR_SIZE, hpkt]
    simp only [ip_total_len, hdr_field16, hdr_byte, List.cons_append, List.getD_cons_succ,
      List.getD_cons_zero]
    exact split16 _
  constructor
  · intro hdrop
    by_contra hge
    have hbad : ip_in_header_bad
        (ip_fragment_out_packet cfg ipc buf cfg.net_if_ip protocol id offset mf) = false := by
      simp only [ip_in_header_bad, htot, IP_HDR_SIZE]
      simp only [ip_fragment_out_packet, IP_HDR_SIZE, hpkt]
      have hv : (69 : Nat) >>> 4 = 4 := by decide
      have hl : (69 : Nat) &&& 15 = 5 := by decide
      simp [ip_version, ip_hdr_len, hdr_byte, IP_VERSION_4, IP_HDR_LEN_PER_BYTE, hv, hl]
      omega
    have hck : ip_in_checksum
        (ip_fragment_out_packet cfg ipc buf cfg.net_if_ip protocol id offset mf) =
        ip_hdr_checksum
          (ip_fragment_out_packet cfg ipc buf cfg.net_if_ip protocol id offset mf) := by
      have hc : checksum16
          (ip_header_bytes cfg ipc (buf.length + 20) cfg.net_if_ip protocol id offset mf 0) 20
          < 65536 := by
        simp only [checksum16]; omega
      simp only [ip_in_checksum, ip_hdr_checksum, ip_fragment_out_packet, IP_HDR_SIZE]
      generalize hcdef : checksum16
        (ip_header_bytes cfg ipc (buf.length + 20) cfg.net_if_ip protocol id offset mf 0) 20 = c
      rw [ip_header_bytes_eq] at hcdef
      rw [ip_header_bytes_eq]
      simp only [List.cons_append, List.nil_append, List.set_cons_succ, List.set_cons_zero,
        hdr_field16, hdr_byte, List.getD_cons_succ, List.getD_cons_zero]
      rw [split16]
      rw [← hcdef]
      simp [checksum16]
    have hdst : ∀ i : Fin 4, ip_dest_ip
        (ip_fragment_out_packet cfg ipc buf cfg.net_if_ip protocol id offset mf) i =
        cfg.net_if_ip i := by
      intro i
      simp only [ip_fragment_out_packet, IP_HDR_SIZE, hpkt]
      fin_cases i <;> simp [ip_dest_ip, hdr_byte]
    have hno : ¬ ∃ i : Fin 4, ip_dest_ip
        (ip_fragment_out_packet cfg ipc buf cfg.net_if_ip protocol id offset mf) i ≠
        cfg.net_if_ip i := by
      intro ⟨i, hi⟩
      exact hi (hdst i)
    unfold ip_in at hdrop
    rw [hbad] at hdrop
    simp only [Bool.false_eq_true, if_false, hck, ne_eq, not_true_eq_false, hno] at hdrop
    split_ifs at hdrop
  · intro hlt
    apply ip_in_drops_bad_header
    right; right
    rw [htot]
    exact hlt

/-! ## The header that `ip_fragment_out` writes, field by field -/

theorem swap16_eq (x : Nat) : swap16 x = (x % 256) * 256 + (x / 256) % 256 := by
  unfold swap16
  have h1 : x &&& 0xFF = x % 256 := Nat.and_pow_two_sub_one_eq_mod x 8
  have h2 : (x >>> 8) &&& 0xFF = (x / 256) % 256 := by
    rw [Nat.shiftRight_eq_div_pow]
    exact Nat.and_pow_two_sub_one_eq_mod _ 8
  have h3 : (x / 256) % 256 < 2 ^ 8 := by omega
  rw [h1, h2, Nat.shiftLeft_eq, Nat.mul_comm (x % 256) (2 ^ 8), ← Nat.mul_add_lt_is_or h3]

theorem swap16_swap16 (x : Nat) (h : x < 65536) : swap16 (swap16 x) = x := by
  have hx : swap16 x = (x % 256) * 256 + x / 256 := by
    rw [swap16_eq]; omega
  have h1 : ((x % 256) * 256 + x / 256) % 256 = x / 256 := by omega
  have h2 : ((x % 256) * 256 + x / 256) / 256 % 256 = x % 256 := by omega
  rw [hx, swap16_eq, h1, h2]
  omega

theorem swap16_mod (x : Nat) : swap16 (x % 65536) = swap16 x := by
  rw [swap16_eq, swap16_eq]
  omega

theorem swap16_or (a b : Nat) : swap16 (a ||| b) = swap16 a ||| swap16 b := by
  apply Nat.eq_of_testBit_eq
  intro i
  have hff : (0xFF : Nat) = 2 ^ 8 - 1 := by norm_num
  simp only [swap16, hff, Nat.testBit_or, Nat.testBit_and, Nat.testBit_shiftLeft,
    Nat.testBit_shiftRight, Nat.testBit_two_pow_sub_one]
  cases decide (i ≥ 8) <;> cases decide (i - 8 < 8) <;> cases decide (i < 8) <;>
    cases a.testBit (i - 8) <;> cases b.testBit (i - 8) <;>
    cases a.testBit (8 + i) <;> cases b.testBit (8 + i) <;> rfl

/-- Two bytes `t &&& 0xFF`, `t >>> 8` of a 16-bit value stored low byte first, read in
network byte order, give `swap16 t`. -/
theorem net16_stored (t : Nat) (h : t < 65536) :
    256 * (t &&& 0xFF) + (t >>> 8) = swap16 t := by
  have h1 : t &&& 0xFF = t % 256 := Nat.and_pow_two_sub_one_eq_mod t 8
  rw [h1, Nat.shiftRight_eq_div_pow, swap16_eq]
  omega

/-- The flags-and-offset word of the header that `ip_fragment_out` writes, read in
network byte order: `offset` when `mf` is zero, and `swap16 IP_MORE_FRAGMENT ||| offset`
when it is not. -/
theorem ip_fragment_out_flags (cfg : config) (ipc : ip_config) (buf : buf_t) (ip : ip_addr)
    (protocol : Nat) (id : Int) (offset : Nat) (mf : Nat) (hoff : offset < 65536) :
    net16 (ip_fragment_out_packet cfg ipc buf ip protocol id offset mf) 6 =
      if mf ≠ 0 then swap16 ipc.IP_MORE_FRAGMENT ||| offset else offset := by
  simp only [ip_fragment_out_packet, IP_HDR_SIZE]
  rw [ip_header_bytes_eq]
  simp only [net16, hdr_byte, List.cons_append, List.getD_cons_succ, List.getD_cons_zero]
  rw [net16_stored _ (Nat.mod_lt _ (by omega)), swap16_mod]
  by_cases h : mf ≠ 0
  · rw [if_pos h, if_pos h, swap16_or, swap16_swap16 offset hoff]
  · rw [if_neg h, if_neg h, swap16_or, swap16_swap16 offset hoff]
    have h0 : swap16 0 = 0 := by decide
    rw [h0, Nat.zero_or]

/-- The other fields of the header that `ip_fragment_out` writes, for a packet of less
than 65536 bytes: version 4, header length 5, type of service 0, total length (network
byte order) the length of the payload plus 20, identifier (network byte order) the low
16 bits of `id`, the default time to live, the protocol, the node's address as source
and `ip` as destination, and the payload behind the header. -/
theorem ip_fragment_out_fields (cfg : config) (ipc : ip_config) (buf : buf_t) (ip : ip_addr)
    (protocol : Nat) (id : Int) (offset : Nat) (mf : Nat) (hlen : buf.length + 20 < 65536) :
    ip_version (ip_fragment_out_packet cfg ipc buf ip protocol id offset mf) = 4 ∧
      ip_hdr_len (ip_fragment_out_packet cfg ipc buf ip protocol id offset mf) = 5 ∧
      hdr_byte (ip_fragment_out_packet cfg ipc buf ip protocol id offset mf) 1 = 0 ∧
      net16 (ip_fragment_out_packet cfg ipc buf ip protocol id offset mf) 2 = buf.length + 20 ∧
      net16 (ip_fragment_out_packet cfg ipc buf ip protocol id offset mf) 4 =
        (id % 65536).toNat ∧
      hdr_byte (ip_fragment_out_packet cfg ipc buf ip protocol id offset mf) 8 =
        ipc.IP_DEFALUT_TTL % 256 ∧
      hdr_byte (ip_fragment_out_packet cfg ipc buf ip protocol id offset mf) 9 =
        protocol % 256 ∧
      ip_src_ip (ip_fragment_out_packet cfg ipc buf ip protocol id offset mf) = cfg.net_if_ip ∧
      ip_dest_ip (ip_fragment_out_packet cfg ipc buf ip protocol id offset mf) = ip ∧
      (ip_fragment_out_packet cfg ipc buf ip protocol id offset mf).drop 20 = buf := by
  have hid : (id % 65536).toNat < 65536 := by omega
  simp only [ip_fragment_out_packet, IP_HDR_SIZE]
  rw [ip_header_bytes_eq]
  refine ⟨?_, ?_, rfl, ?_, ?_, rfl, rfl, ?_, ?_, rfl⟩
  · show (69 : Nat) >>> 4 = 4
    decide
  · show (69 : Nat) &&& 0xF = 5
    decide
  · simp only [net16, hdr_byte, List.cons_append, List.getD_cons_succ, List.getD_cons_zero]
    rw [net16_stored _ (swap16_lt _), swap16_swap16 _ hlen]
  · simp only [net16, hdr_byte, List.cons_append, List.getD_cons_succ, List.getD_cons_zero]
    rw [net16_stored _ (swap16_lt _), swap16_swap16 _ hid]
  · funext i
    fin_cases i <;> rfl
  · funext i
    fin_cases i <;> rfl

/-! ## The header of a fragment: what the fields can hold -/

theorem swap16_swap16_mod (x : Nat) : swap16 (swap16 x) = x % 65536 := by
  rw [← swap16_mod x, swap16_swap16 _ (Nat.mod_lt _ (by omega))]

/-- The total-length field of the header that `ip_fragment_out` writes, read in network
byte order, is the length of the packet modulo `2^16`. -/
theorem ip_fragment_out_total_len (cfg : config) (ipc : ip_config) (buf : buf_t)
    (ip : ip_addr) (protocol : Nat) (id : Int) (offset : Nat) (mf : Nat) :
    net16 (ip_fragment_out_packet cfg ipc buf ip protocol id offset mf) 2 =
      (buf.length + 20) % 65536 := by
  simp only [ip_fragment_out_packet, IP_HDR_SIZE]
  rw [ip_header_bytes_eq]
  simp only [net16, hdr_byte, List.cons_append, List.getD_cons_succ, List.getD_cons_zero]
  rw [net16_stored _ (swap16_lt _), swap16_swap16_mod]

/-- The protocol field of the header that `ip_fragment_out` writes is the low byte of
`protocol`. -/
theorem ip_fragment_out_protocol (cfg : config) (ipc : ip_config) (buf : buf_t)
    (ip : ip_addr) (protocol : Nat) (id : Int) (offset : Nat) (mf : Nat) :
    hdr_byte (ip_fragment_out_packet cfg ipc buf ip protocol id offset mf) 9 =
      protocol % 256 := by
  simp only [ip_fragment_out_packet, IP_HDR_SIZE]
  rw [ip_header_bytes_eq]
  rfl

theorem flags_word_bits (offset mf : Nat) (hoff : offset < 8192) :
    ((if mf ≠ 0 then 0x2000 ||| offset else offset).testBit 13 = true ↔ mf ≠ 0) ∧
      (if mf ≠ 0 then 0x2000 ||| offset else offset) % 8192 = offset := by
  have hlt : offset < 2 ^ 13 := by omega
  have hbit : offset.testBit 13 = false := Nat.testBit_lt_two_pow hlt
  have hor : 0x2000 ||| offset = 2 ^ 13 * 1 + offset :=
    (Nat.mul_add_lt_is_or hlt 1).symm
  by_cases h : mf ≠ 0
  · rw [if_pos h]
    have hset : (0x2000 ||| offset).testBit 13 = true := by
      rw [Nat.testBit_or, hbit]
      decide
    refine ⟨⟨fun _ => h, fun _ => hset⟩, ?_⟩
    rw [hor]
    omega
  · rw [if_neg h]
    refine ⟨⟨fun hb => ?_, fun hm => absurd hm h⟩, Nat.mod_eq_of_lt hoff⟩
    rw [hbit] at hb
    exact absurd hb (by decide)

end NetLab
